import Mathlib

/-!
Shallow embedding of the PenguinClip clipboard-history engine
(`src-tauri/src/clipboard_manager.rs`) and of the paste-keystroke cascade
(`src-tauri/src/input_simulator.rs`), together with proofs of the
specification's testable properties.

Machine integers (`u64`, `usize`) are modelled as `Nat`, with explicit
reduction `% 2^64` exactly where Rust uses wrapping arithmetic.
File-system persistence is modelled by exposing the serialized item list
(`save_history`) and by making `load_history` a function of the parsed
item list; serde's JSON round trip is the identity on the data model.
Clock and UUID generation are passed in as explicit arguments.
-/

namespace PenguinClip

/-! ### Constants (clipboard_manager.rs lines 19-29) -/

def DEFAULT_MAX_HISTORY_SIZE : Nat := 50
def PREVIEW_TEXT_MAX_LEN : Nat := 100
def GIF_CACHE_MARKER : String := "penguinclip/gifs/"
def FILE_URI_PREFIX : String := "file://"
def FNV_OFFSET_BASIS : Nat := 0xcbf29ce484222325
def FNV_PRIME : Nat := 0x100000001b3

/-- Modulus for 64-bit wrapping arithmetic (`u64`). -/
def U64 : Nat := 2 ^ 64

/-! ### FNV-1a hashing (clipboard_manager.rs lines 31-56)

`FnvHasher::write` xors each byte into the state and multiplies by the
FNV prime with wrapping `u64` arithmetic. -/

/-- One step of `FnvHasher::write`: `self.0 ^= byte; self.0 = self.0.wrapping_mul(FNV_PRIME)`. -/
def fnvStep (h b : Nat) : Nat := ((h ^^^ b) * FNV_PRIME) % U64

/-- `FnvHasher::write` over a byte stream, starting from state `h`. -/
def fnvWrite (h : Nat) (bytes : List Nat) : Nat := bytes.foldl fnvStep h

/-- UTF-8 encoding of one character (the byte stream Rust's `str::as_bytes` yields). -/
def charUtf8Bytes (c : Char) : List Nat :=
  let n := c.toNat
  if n < 0x80 then [n]
  else if n < 0x800 then
    [0xC0 ||| (n >>> 6), 0x80 ||| (n &&& 0x3F)]
  else if n < 0x10000 then
    [0xE0 ||| (n >>> 12), 0x80 ||| ((n >>> 6) &&& 0x3F), 0x80 ||| (n &&& 0x3F)]
  else
    [0xF0 ||| (n >>> 18), 0x80 ||| ((n >>> 12) &&& 0x3F),
     0x80 ||| ((n >>> 6) &&& 0x3F), 0x80 ||| (n &&& 0x3F)]

/-- UTF-8 bytes of a string. -/
def strBytes (s : String) : List Nat := (s.data.map charUtf8Bytes).flatten

/-- The byte stream Rust's `Hash` impl for `str`/`String` feeds to the hasher:
the UTF-8 bytes followed by the `0xff` terminator byte (`state.write_u8(0xff)`
in `impl Hash for str`). -/
def strHashStream (s : String) : List Nat := strBytes s ++ [0xff]

/-- `calculate_hash` (clipboard_manager.rs lines 52-56) instantiated at strings:
run `FnvHasher::default()` (state = offset basis) over the string's hash stream
and return `finish()` (the state). -/
def calculate_hash (s : String) : Nat := fnvWrite FNV_OFFSET_BASIS (strHashStream s)

/-! ### Data structures (clipboard_manager.rs lines 63-163) -/

/-- `ClipboardContent`: tagged union of text, rich text, and base64 images. -/
inductive ClipboardContent
  | Text : String → ClipboardContent
  | RichText : (plain : String) → (html : String) → ClipboardContent
  | Image : (base64 : String) → (width : Nat) → (height : Nat) → ClipboardContent
deriving DecidableEq

/-- `ClipboardItem` (timestamp as seconds since epoch, `Int` like chrono's
`num_seconds`). -/
structure ClipboardItem where
  id : String
  content : ClipboardContent
  timestamp : Int
  pinned : Bool
  favorited : Bool
  preview : String
deriving DecidableEq

/-- Preview of a text item: at most `PREVIEW_TEXT_MAX_LEN` chars, with `"..."`
appended when truncated (`ClipboardItem::new_text` lines 101-108). -/
def mkTextPreview (text : String) : String :=
  if PREVIEW_TEXT_MAX_LEN < text.data.length then
    String.mk (text.data.take PREVIEW_TEXT_MAX_LEN) ++ "..."
  else text

/-- `ClipboardItem::new_text` (id and timestamp supplied by the caller:
`Uuid::new_v4` and `Utc::now` are environment inputs). -/
def ClipboardItem.new_text (id : String) (now : Int) (text : String) : ClipboardItem :=
  ⟨id, ClipboardContent.Text text, now, false, false, mkTextPreview text⟩

/-- `ClipboardItem::new_rich_text`. -/
def ClipboardItem.new_rich_text (id : String) (now : Int) (plain html : String) :
    ClipboardItem :=
  ⟨id, ClipboardContent.RichText plain html, now, false, false, mkTextPreview plain⟩

/-- `ClipboardItem::new_image`: the content hash is embedded in the preview
string `"Image (WxH) #hash"`. -/
def ClipboardItem.new_image (id : String) (now : Int) (base64 : String)
    (width height hash : Nat) : ClipboardItem :=
  ⟨id, ClipboardContent.Image base64 width height, now, false, false,
    "Image (" ++ toString width ++ "x" ++ toString height ++ ") #" ++ toString hash⟩

/-- `str::split('#')` over a character list: the pieces between `'#'` marks. -/
def splitOnHashAux (acc : List Char) : List Char → List (List Char)
  | [] => [acc.reverse]
  | c :: cs =>
    if c = '#' then acc.reverse :: splitOnHashAux [] cs
    else splitOnHashAux (c :: acc) cs

/-- Decimal digit parser, the digits-only core of `u64::from_str`.
(`parse::<u64>` also rejects values ≥ 2^64; previews embed genuine `u64`
hashes, so that bound is not modelled.) -/
def parseDecimal : List Char → Option Nat
  | [] => none
  | cs => cs.foldl
      (fun acc c =>
        acc.bind fun n => if c.isDigit then some (n * 10 + (c.toNat - 48)) else none)
      (some 0)

/-- `ClipboardItem::extract_image_hash` (lines 154-162): split the preview on
`'#'` and parse the second piece as a number. -/
def ClipboardItem.extract_image_hash (i : ClipboardItem) : Option Nat :=
  match i.content with
  | ClipboardContent.Image _ _ _ =>
    ((splitOnHashAux [] i.preview.data).get? 1).bind parseDecimal
  | _ => none

/-- A protected item: `pinned || favorited` (exempt from eviction). -/
def isProtected (i : ClipboardItem) : Bool := i.pinned || i.favorited

/-! ### Substring containment (Rust `str::contains` with a `&str` pattern) -/

/-- `needle` is a prefix of `hay` (character lists). -/
def listPrefixEq : List Char → List Char → Bool
  | [], _ => true
  | _ :: _, [] => false
  | a :: as, b :: bs => a = b && listPrefixEq as bs

/-- `needle` occurs as a contiguous run inside `hay`. -/
def strContainsAux (needle : List Char) : List Char → Bool
  | [] => listPrefixEq needle []
  | x :: xs => listPrefixEq needle (x :: xs) || strContainsAux needle xs

/-- Rust `hay.contains(needle)`: substring containment. -/
def strContains (hay needle : String) : Bool := strContainsAux needle.data hay.data

/-- Rust `s.trim().is_empty()`: every character is whitespace. -/
def isBlank (s : String) : Bool := s.data.all Char.isWhitespace

/-! ### Manager state (clipboard_manager.rs lines 168-179)

The `persistence_path` field is a file-system handle and is not part of the
pure state; persistence is modelled through `save_history`/`load_history`. -/

structure ClipboardManager where
  history : List ClipboardItem
  last_pasted_text : Option String
  last_pasted_image_hash : Option Nat
  last_added_text_hash : Option Nat
  max_history_size : Nat
deriving DecidableEq

namespace ClipboardManager

/-- `clamp_max_history_size` (lines 182-188). -/
def clamp_max_history_size (size : Nat) : Nat :=
  if size = 0 then DEFAULT_MAX_HISTORY_SIZE
  else if size ≤ 100000 then size
  else 100000

/-- `Iterator::rposition`: index of the last element satisfying `p`. -/
def rposition (p : ClipboardItem → Bool) : List ClipboardItem → Option Nat
  | [] => none
  | x :: xs =>
    match rposition p xs with
    | some k => some (k + 1)
    | none => if p x then some 0 else none

/-- The loop body of `enforce_history_limit` (lines 501-513), with explicit
fuel (each iteration removes one element, so the initial length suffices):
while over the limit, remove the last unpinned-and-unfavorited item;
stop when none exists. -/
def enforceLoop : Nat → Nat → List ClipboardItem → List ClipboardItem
  | 0, _, l => l
  | fuel + 1, maxSize, l =>
    if maxSize < l.length then
      match rposition (fun i => !i.pinned && !i.favorited) l with
      | some pos => enforceLoop fuel maxSize (l.eraseIdx pos)
      | none => l
    else l

/-- `enforce_history_limit`: trims the history, returns whether trimming occurred. -/
def enforce_history_limit (m : ClipboardManager) : ClipboardManager × Bool :=
  let h := enforceLoop m.history.length m.max_history_size m.history
  ({ m with history := h }, decide (h.length ≠ m.history.length))

/-- Insertion position of a fresh item: first non-pinned slot, or end of list
(`insert_item` lines 485-493). -/
def insertAfterPinned (item : ClipboardItem) (l : List ClipboardItem) :
    List ClipboardItem :=
  l.insertIdx ((l.findIdx? (fun i => !i.pinned)).getD l.length) item

/-- `insert_item` (lines 485-498): insert after the pinned block, then trim.
(The `save_history` call is a disk flush of the resulting state.) -/
def insert_item (m : ClipboardManager) (item : ClipboardItem) : ClipboardManager :=
  (({ m with history := insertAfterPinned item m.history } :
      ClipboardManager).enforce_history_limit).1

/-- `should_skip_text` (lines 399-420): blank text, internal GIF-cache URIs,
and one-shot self-paste suppression (substring match, clearing the slot). -/
def should_skip_text (m : ClipboardManager) (text : String) :
    Bool × ClipboardManager :=
  if isBlank text then (true, m)
  else if strContains text FILE_URI_PREFIX && strContains text GIF_CACHE_MARKER then
    (true, m)
  else
    match m.last_pasted_text with
    | some pasted =>
      if pasted = text || strContains text pasted then
        (true, { m with last_pasted_text := none })
      else (false, m)
    | none => (false, m)

/-- `is_duplicate_text` (lines 443-454): does the first non-pinned item carry
exactly this text? -/
def is_duplicate_text (m : ClipboardManager) (text : String) : Bool :=
  match m.history.find? (fun i => !i.pinned) with
  | some item =>
    match item.content with
    | ClipboardContent.Text t => t = text
    | ClipboardContent.RichText plain _ => plain = text
    | _ => false
  | none => false

/-- Predicate of `remove_duplicate_text_from_history` (lines 456-469). -/
def dupTextPred (text : String) (i : ClipboardItem) : Bool :=
  !i.pinned &&
    (match i.content with
     | ClipboardContent.Text t => t = text
     | ClipboardContent.RichText plain _ => plain = text
     | _ => false)

/-- `remove_duplicate_text_from_history`: remove the first non-pinned item with
this exact text, if any. -/
def remove_duplicate_text_from_history (m : ClipboardManager) (text : String) :
    ClipboardManager :=
  match m.history.findIdx? (dupTextPred text) with
  | some pos => { m with history := m.history.eraseIdx pos }
  | none => m

/-- `add_text` (lines 342-377). `newId`/`now` stand for `Uuid::new_v4()` and
`Utc::now()`. -/
def add_text (m : ClipboardManager) (text : String) (html : Option String)
    (newId : String) (now : Int) : Option ClipboardItem × ClipboardManager :=
  let skm := m.should_skip_text text
  if skm.1 then (none, skm.2)
  else
    let m := skm.2
    let text_hash := calculate_hash text
    -- Rapid copy detection
    if m.last_added_text_hash = some text_hash then (none, m)
    else if m.is_duplicate_text text then
      (none, { m with last_added_text_hash := some text_hash })
    else
      let m := m.remove_duplicate_text_from_history text
      let item :=
        match html with
        | some html_content =>
          if isBlank html_content then ClipboardItem.new_text newId now text
          else ClipboardItem.new_rich_text newId now text html_content
        | none => ClipboardItem.new_text newId now text
      let m := m.insert_item item
      (some item, { m with last_added_text_hash := some text_hash })

/-- The top-of-history check of `should_skip_image` (lines 431-438). -/
def image_dup_at_top (m : ClipboardManager) (hash : Nat) : Bool :=
  match m.history.find? (fun i => !i.pinned) with
  | some item =>
    match item.extract_image_hash with
    | some item_hash => item_hash = hash
    | none => false
  | none => false

/-- `should_skip_image` (lines 422-441): one-shot pasted-image suppression,
then duplicate-at-top check. -/
def should_skip_image (m : ClipboardManager) (hash : Nat) :
    Bool × ClipboardManager :=
  match m.last_pasted_image_hash with
  | some pasted_hash =>
    if pasted_hash = hash then (true, { m with last_pasted_image_hash := none })
    else (m.image_dup_at_top hash, m)
  | none => (m.image_dup_at_top hash, m)

/-- `add_image` (lines 379-395). `conv` is the result of
`convert_image_to_base64` (PNG encoding is outside the model; `none` models a
conversion failure, which aborts without inserting). -/
def add_image (m : ClipboardManager) (hash : Nat) (conv : Option String)
    (width height : Nat) (newId : String) (now : Int) :
    Option ClipboardItem × ClipboardManager :=
  let skm := m.should_skip_image hash
  if skm.1 then (none, skm.2)
  else
    match conv with
    | none => (none, skm.2)
    | some base64_image =>
      let item := ClipboardItem.new_image newId now base64_image width height hash
      (some item, skm.2.insert_item item)

/-- `get_history` (lines 517-519). -/
def get_history (m : ClipboardManager) : List ClipboardItem := m.history

/-- `get_item` (lines 521-523). -/
def get_item (m : ClipboardManager) (id : String) : Option ClipboardItem :=
  m.history.find? (fun item => item.id = id)

/-- `clear` (lines 525-528): retain pinned or favorited items only. -/
def clear (m : ClipboardManager) : ClipboardManager :=
  { m with history := m.history.filter (fun item => item.pinned || item.favorited) }

/-- `remove_item` (lines 530-533): retain items with a different id. -/
def remove_item (m : ClipboardManager) (id : String) : ClipboardManager :=
  { m with history := m.history.filter (fun item => item.id ≠ id) }

/-- `toggle_pin` (lines 535-552): flip the flag of the first item with this id,
remove it, and reinsert it at the pinned/unpinned boundary. (Rust mutates in
place and then `remove(pos)`; mutate-then-remove collapses to removing and
flipping the removed item.) -/
def toggle_pin (m : ClipboardManager) (id : String) :
    Option ClipboardItem × ClipboardManager :=
  match m.history.findIdx? (fun i => i.id = id) with
  | none => (none, m)
  | some pos =>
    match m.history.get? pos with
    | none => (none, m) -- unreachable: a findIdx? index is in bounds
    | some it =>
      let item := { it with pinned := !it.pinned }
      let rest := m.history.eraseIdx pos
      (some item, { m with history := insertAfterPinned item rest })

/-- `toggle_favorite` (lines 554-560): flip `favorited` on the first item with
this id; no reordering. -/
def toggle_favorite (m : ClipboardManager) (id : String) :
    Option ClipboardItem × ClipboardManager :=
  match m.history.findIdx? (fun i => i.id = id) with
  | none => (none, m)
  | some pos =>
    match m.history.get? pos with
    | none => (none, m) -- unreachable: a findIdx? index is in bounds
    | some it =>
      let item := { it with favorited := !it.favorited }
      (some item, { m with history := m.history.set pos item })

/-- `move_item_to_top` (lines 565-586): pinned items move to index 0, unpinned
items to the first non-pinned slot; the insertion index is computed on the full
list before the removal, exactly as in the source. -/
def move_item_to_top (m : ClipboardManager) (id : String) :
    Bool × ClipboardManager :=
  match m.history.findIdx? (fun i => i.id = id) with
  | none => (false, m)
  | some current_pos =>
    match m.history.get? current_pos with
    | none => (false, m) -- unreachable: a findIdx? index is in bounds
    | some it =>
      let insert_pos :=
        if it.pinned then 0
        else (m.history.findIdx? (fun i => !i.pinned)).getD m.history.length
      if insert_pos = current_pos then (true, m)
      else
        (true,
         { m with history := (m.history.eraseIdx current_pos).insertIdx insert_pos it })

/-- `cleanup_old_items` (lines 588-621): drop unprotected items older than the
interval; returns whether anything was removed. `now` stands for `Utc::now()`. -/
def cleanup_old_items (m : ClipboardManager) (interval_minutes : Nat) (now : Int) :
    Bool × ClipboardManager :=
  if interval_minutes = 0 then (false, m)
  else
    let keep := fun (item : ClipboardItem) =>
      item.pinned || item.favorited ||
        decide (now - item.timestamp < (interval_minutes * 60 : Nat))
    let h := m.history.filter keep
    (decide (h.length ≠ m.history.length), { m with history := h })

/-- `set_max_history_size` (lines 206-227): clamp, never below the protected
count, then re-enforce the limit. -/
def set_max_history_size (m : ClipboardManager) (new_size : Nat) : ClipboardManager :=
  let clamped := clamp_max_history_size new_size
  let protected_count := (m.history.filter isProtected).length
  let clamped := if clamped < protected_count then protected_count else clamped
  (({ m with max_history_size := clamped } : ClipboardManager).enforce_history_limit).1

/-- `save_history` (lines 291-303): the serialized form of the history is the
item list itself (serde JSON round trip is the identity on the data model). -/
def save_history (m : ClipboardManager) : List ClipboardItem := m.history

/-- `load_history` (lines 234-289), success path, as a function of the parsed
item list: stable-partition pinned items to the front, trim to the configured
limit, and seed the rapid-duplicate guard from the top item. -/
def load_history (m : ClipboardManager) (items : List ClipboardItem) :
    ClipboardManager :=
  let pinned_items := items.filter (fun i => i.pinned)
  let unpinned_items := items.filter (fun i => !i.pinned)
  let m1 := (({ m with history := pinned_items ++ unpinned_items } :
      ClipboardManager).enforce_history_limit).1
  match m1.history.head? with
  | some first =>
    match first.content with
    | ClipboardContent.Text text =>
      { m1 with last_added_text_hash := some (calculate_hash text) }
    | ClipboardContent.RichText plain _ =>
      { m1 with last_added_text_hash := some (calculate_hash plain) }
    | ClipboardContent.Image _ _ _ =>
      match first.extract_image_hash with
      | some _ => { m1 with last_added_text_hash := none }
      | none => m1
  | none => m1

/-- `ClipboardManager::new` (lines 190-203): clamp the requested size and
hydrate from disk. `disk = none` models a missing or unparsable history file
(history stays empty). -/
def new (max_history_size : Nat) (disk : Option (List ClipboardItem)) :
    ClipboardManager :=
  let base : ClipboardManager :=
    ⟨[], none, none, none, clamp_max_history_size max_history_size⟩
  match disk with
  | none => base
  | some items => base.load_history items

/-- `mark_as_pasted` (lines 625-642). -/
def mark_as_pasted (m : ClipboardManager) (item : ClipboardItem) : ClipboardManager :=
  match item.content with
  | ClipboardContent.Text text =>
    { m with last_pasted_text := some text, last_pasted_image_hash := none }
  | ClipboardContent.RichText plain _ =>
    { m with last_pasted_text := some plain, last_pasted_image_hash := none }
  | ClipboardContent.Image _ _ _ =>
    match item.extract_image_hash with
    | some hash =>
      { m with last_pasted_text := none, last_pasted_image_hash := some hash }
    | none => { m with last_pasted_text := none }

/-- `mark_text_as_pasted` (lines 646-649): arms the self-paste suppression slot
and also the rapid-duplicate guard hash. -/
def mark_text_as_pasted (m : ClipboardManager) (text : String) : ClipboardManager :=
  { m with last_pasted_text := some text,
           last_added_text_hash := some (calculate_hash text) }

end ClipboardManager

/-! ### Paste-keystroke injection cascade (input_simulator.rs lines 20-63)

The three strategies perform OS side effects; their outcome is an environment
input (`outcome`), mapping each strategy to `Ok(())` or `Err(msg)`. The model
records the result and the list of strategies actually attempted, in order. -/

/-- The named strategies of `simulate_paste_keystroke`. -/
inductive PasteStrategy
  | xdotool
  | xtest
  | uinput
deriving DecidableEq

/-- `X11_STRATEGIES` / `NON_X11_STRATEGIES` (lines 34-46), selected by session
type. -/
def paste_strategies (isX11 : Bool) : List PasteStrategy :=
  if isX11 then [PasteStrategy.xdotool, PasteStrategy.xtest, PasteStrategy.uinput]
  else [PasteStrategy.uinput]

/-- The `for (name, func) in strategies` loop (lines 48-60): return `Ok` on the
first strategy that succeeds; record which strategies were attempted. -/
def runCascade (outcome : PasteStrategy → Except String Unit) :
    List PasteStrategy → Except String Unit × List PasteStrategy
  | [] => (Except.error "All paste methods failed", [])
  | s :: rest =>
    match outcome s with
    | Except.ok _ => (Except.ok (), [s])
    | Except.error _ =>
      let r := runCascade outcome rest
      (r.1, s :: r.2)

/-- `simulate_paste_keystroke` (lines 20-63): try the session's strategies in
their fixed order. (The sleeps and the terminal-aware modifier choice affect
what each strategy does, not which strategies run; they live inside `outcome`.) -/
def simulate_paste_keystroke (isX11 : Bool)
    (outcome : PasteStrategy → Except String Unit) :
    Except String Unit × List PasteStrategy :=
  runCascade outcome (paste_strategies isX11)

/-! ### Specification predicates -/

/-- The ordering invariant: every pinned item precedes every unpinned item. -/
def PinnedFirst (l : List ClipboardItem) : Prop :=
  l.Pairwise (fun a b => b.pinned = true → a.pinned = true)

/-- Relative order within the pinned group and within the unpinned group is
preserved, except for at most one item (the one an operation deliberately
moves or inserts): after erasing that item from the new list, each group is a
subsequence of the corresponding old group. -/
def GroupOrderPreserved (old new : List ClipboardItem) : Prop :=
  ∃ i, ((new.eraseIdx i).filter (fun x => x.pinned)).Sublist
         (old.filter (fun x => x.pinned)) ∧
       ((new.eraseIdx i).filter (fun x => !x.pinned)).Sublist
         (old.filter (fun x => !x.pinned))

/-! ### Basic lemmas -/

lemma groupOrder_of_sublist {old new : List ClipboardItem} (h : new.Sublist old) :
    GroupOrderPreserved old new := by
  refine ⟨new.length, ?_, ?_⟩ <;>
    rw [List.eraseIdx_of_length_le (le_refl new.length)] <;> exact h.filter _

lemma groupOrder_of_exists_erase {old new : List ClipboardItem}
    (h : ∃ i, (new.eraseIdx i).Sublist old) : GroupOrderPreserved old new := by
  obtain ⟨i, hi⟩ := h
  exact ⟨i, hi.filter _, hi.filter _⟩

lemma pinnedFirst_of_sublist {l l' : List ClipboardItem} (h : l'.Sublist l)
    (hl : PinnedFirst l) : PinnedFirst l' := hl.sublist h

/-- In a `PinnedFirst` list headed by an unpinned item, everything is unpinned. -/
lemma pinnedFirst_unpinned_head {x : ClipboardItem} {xs : List ClipboardItem}
    (h : PinnedFirst (x :: xs)) (hx : x.pinned = false) :
    ∀ y ∈ x :: xs, y.pinned = false := by
  intro y hy
  rcases List.mem_cons.mp hy with rfl | hy
  · exact hx
  · rcases List.pairwise_cons.mp h with ⟨hrel, _⟩
    by_contra hc
    have := hrel y hy (by simpa using hc)
    simp [hx] at this

/-! ### Boundary insertion (`insert_item`, `toggle_pin`) -/

lemma insertAfterPinned_nil (a : ClipboardItem) :
    ClipboardManager.insertAfterPinned a [] = [a] := rfl

lemma insertAfterPinned_cons_unpinned {x : ClipboardItem} (xs : List ClipboardItem)
    (a : ClipboardItem) (hx : x.pinned = false) :
    ClipboardManager.insertAfterPinned a (x :: xs) = a :: x :: xs := by
  simp [ClipboardManager.insertAfterPinned, List.findIdx?_cons, hx]

lemma insertAfterPinned_cons_pinned {x : ClipboardItem} (xs : List ClipboardItem)
    (a : ClipboardItem) (hx : x.pinned = true) :
    ClipboardManager.insertAfterPinned a (x :: xs) = x :: ClipboardManager.insertAfterPinned a xs := by
  unfold ClipboardManager.insertAfterPinned
  rw [List.findIdx?_cons]
  simp only [hx, Bool.not_true, if_false]
  cases h : xs.findIdx? (fun i => !i.pinned) with
  | none => simp [h, List.insertIdx_length_self]
  | some k => simp [h]

lemma mem_insertAfterPinned {a y : ClipboardItem} {l : List ClipboardItem}
    (h : y ∈ ClipboardManager.insertAfterPinned a l) : y = a ∨ y ∈ l := by
  induction l with
  | nil => simpa [insertAfterPinned_nil] using h
  | cons x xs ih =>
    by_cases hx : x.pinned
    · rw [insertAfterPinned_cons_pinned xs a hx] at h
      rcases List.mem_cons.mp h with rfl | h
      · exact Or.inr (List.mem_cons_self _ _)
      · rcases ih h with h | h
        · exact Or.inl h
        · exact Or.inr (List.mem_cons_of_mem _ h)
    · rw [insertAfterPinned_cons_unpinned xs a (by simpa using hx)] at h
      simpa using h

lemma pinnedFirst_insertAfterPinned {l : List ClipboardItem} (a : ClipboardItem)
    (h : PinnedFirst l) : PinnedFirst (ClipboardManager.insertAfterPinned a l) := by
  induction l with
  | nil => simp [insertAfterPinned_nil, PinnedFirst]
  | cons x xs ih =>
    by_cases hx : x.pinned
    · rw [insertAfterPinned_cons_pinned xs a hx]
      have htail : PinnedFirst xs := (List.pairwise_cons.mp h).2
      refine List.pairwise_cons.mpr ⟨?_, ih htail⟩
      intro y _ _
      exact hx
    · have hx' : x.pinned = false := by simpa using hx
      rw [insertAfterPinned_cons_unpinned xs a hx']
      refine List.pairwise_cons.mpr ⟨?_, h⟩
      intro y hy hpy
      exact absurd hpy (by simp [pinnedFirst_unpinned_head h hx' y hy])

lemma exists_eraseIdx_insertAfterPinned (a : ClipboardItem) (l : List ClipboardItem) :
    ∃ i, (ClipboardManager.insertAfterPinned a l).eraseIdx i = l := by
  induction l with
  | nil => exact ⟨0, rfl⟩
  | cons x xs ih =>
    by_cases hx : x.pinned
    · obtain ⟨i, hi⟩ := ih
      exact ⟨i + 1, by rw [insertAfterPinned_cons_pinned xs a hx,
        List.eraseIdx_cons_succ, hi]⟩
    · exact ⟨0, by rw [insertAfterPinned_cons_unpinned xs a (by simpa using hx),
        List.eraseIdx_cons_zero]⟩

/-- A sublist of a boundary insertion is, after erasing at most one index, a
sublist of the original list. -/
lemma sublist_insertAfterPinned_elim {a : ClipboardItem} :
    ∀ {l r : List ClipboardItem}, r.Sublist (ClipboardManager.insertAfterPinned a l) →
      ∃ i, (r.eraseIdx i).Sublist l := by
  intro l
  induction l with
  | nil =>
    intro r h
    rw [insertAfterPinned_nil] at h
    rcases List.sublist_singleton.mp h with rfl | rfl
    · exact ⟨0, List.Sublist.refl _⟩
    · exact ⟨0, by simp⟩
  | cons x xs ih =>
    intro r h
    by_cases hx : x.pinned
    · rw [insertAfterPinned_cons_pinned xs a hx] at h
      cases h with
      | cons _ h =>
        obtain ⟨i, hi⟩ := ih h
        exact ⟨i, hi.trans (List.sublist_cons_self x xs)⟩
      | cons₂ _ h =>
        obtain ⟨i, hi⟩ := ih h
        exact ⟨i + 1, by rw [List.eraseIdx_cons_succ]; exact hi.cons₂ x⟩
    · rw [insertAfterPinned_cons_unpinned xs a (by simpa using hx)] at h
      cases h with
      | cons _ h =>
        exact ⟨r.length, by rw [List.eraseIdx_of_length_le (le_refl r.length)]; exact h⟩
      | cons₂ _ h =>
        exact ⟨0, by rw [List.eraseIdx_cons_zero]; exact h⟩

/-! ### `rposition` and `enforceLoop` lemmas -/

namespace ClipboardManager

lemma rposition_some {p : ClipboardItem → Bool} :
    ∀ {l : List ClipboardItem} {pos : Nat}, rposition p l = some pos →
      ∃ x, l.get? pos = some x ∧ p x = true := by
  intro l
  induction l with
  | nil => intro pos h; simp [rposition] at h
  | cons x xs ih =>
    intro pos h
    rw [rposition] at h
    cases hxs : rposition p xs with
    | some k =>
      rw [hxs] at h
      cases h
      obtain ⟨y, hy, hpy⟩ := ih hxs
      exact ⟨y, by simpa using hy, hpy⟩
    | none =>
      rw [hxs] at h
      by_cases hpx : p x
      · simp [hpx] at h
        exact ⟨x, by simp [← h], hpx⟩
      · simp [hpx] at h

lemma rposition_none {p : ClipboardItem → Bool} :
    ∀ {l : List ClipboardItem}, rposition p l = none → ∀ x ∈ l, p x = false := by
  intro l
  induction l with
  | nil => intro _ x hx; cases hx
  | cons x xs ih =>
    intro h y hy
    rw [rposition] at h
    cases hxs : rposition p xs with
    | some k => rw [hxs] at h; cases h
    | none =>
      rw [hxs] at h
      by_cases hpx : p x
      · simp [hpx] at h
      · rcases List.mem_cons.mp hy with rfl | hy
        · simpa using hpx
        · exact ih hxs y hy

/-- Elements strictly after the `rposition` index do not satisfy the predicate:
the removed element is the tail-most match. -/
lemma rposition_last {p : ClipboardItem → Bool} :
    ∀ {l : List ClipboardItem} {pos : Nat}, rposition p l = some pos →
      ∀ j y, pos < j → l.get? j = some y → p y = false := by
  intro l
  induction l with
  | nil => intro pos h; simp [rposition] at h
  | cons x xs ih =>
    intro pos h j y hj hy
    rw [rposition] at h
    cases hxs : rposition p xs with
    | some k =>
      rw [hxs] at h
      cases h
      obtain ⟨j', rfl⟩ : ∃ j', j = j' + 1 := ⟨j - 1, by omega⟩
      exact ih hxs j' y (by omega) (by simpa using hy)
    | none =>
      rw [hxs] at h
      by_cases hpx : p x
      · simp [hpx] at h
        obtain ⟨j', rfl⟩ : ∃ j', j = j' + 1 := ⟨j - 1, by omega⟩
        exact rposition_none hxs y (List.get?_mem (by simpa using hy))
      · simp [hpx] at h

/-- The predicate `enforce_history_limit` removes by: neither pinned nor
favorited, i.e. not protected. -/
lemma removable_iff_not_protected (x : ClipboardItem) :
    (!x.pinned && !x.favorited) = !isProtected x := by
  cases hp : x.pinned <;> cases hf : x.favorited <;> simp [isProtected, hp, hf]

lemma enforceLoop_sublist :
    ∀ (fuel maxSize : Nat) (l : List ClipboardItem),
      (enforceLoop fuel maxSize l).Sublist l := by
  intro fuel
  induction fuel with
  | zero => intro maxSize l; exact List.Sublist.refl l
  | succ fuel ih =>
    intro maxSize l
    rw [enforceLoop]
    by_cases hlen : maxSize < l.length
    · simp only [hlen, if_true]
      cases hr : rposition (fun i => !i.pinned && !i.favorited) l with
      | some pos => exact (ih maxSize (l.eraseIdx pos)).trans (List.eraseIdx_sublist l pos)
      | none => exact List.Sublist.refl l
    · simp only [hlen, if_false]
      exact List.Sublist.refl l

/-- Erasing an element that fails `q` does not change `filter q`. -/
lemma filter_eraseIdx_of_not {q : ClipboardItem → Bool} :
    ∀ {l : List ClipboardItem} {pos : Nat} {x : ClipboardItem},
      l.get? pos = some x → q x = false →
      (l.eraseIdx pos).filter q = l.filter q := by
  intro l
  induction l with
  | nil => intro pos x h; cases h
  | cons y ys ih =>
    intro pos x h hq
    cases pos with
    | zero =>
      cases h
      simp [List.eraseIdx_cons_zero, List.filter_cons, hq]
    | succ pos' =>
      rw [List.eraseIdx_cons_succ]
      have := ih (by simpa using h) hq
      simp only [List.filter_cons]
      cases q y <;> simp [this]

/-- Eviction never removes an item satisfying a predicate that implies
protection (in particular: never a pinned or favorited item). -/
lemma enforceLoop_filter_protected {q : ClipboardItem → Bool}
    (hq : ∀ x, q x = true → isProtected x = true) :
    ∀ (fuel maxSize : Nat) (l : List ClipboardItem),
      (enforceLoop fuel maxSize l).filter q = l.filter q := by
  intro fuel
  induction fuel with
  | zero => intro maxSize l; rfl
  | succ fuel ih =>
    intro maxSize l
    rw [enforceLoop]
    by_cases hlen : maxSize < l.length
    · simp only [hlen, if_true]
      cases hr : rposition (fun i => !i.pinned && !i.favorited) l with
      | some pos =>
        obtain ⟨x, hx, hpx⟩ := rposition_some hr
        have hprotx : isProtected x = false := by
          have := (removable_iff_not_protected x) ▸ hpx
          cases hP : isProtected x <;> simp [hP] at this ⊢
        have hqx : q x = false := by
          cases hQ : q x
          · rfl
          · exact absurd (hq x hQ) (by simp [hprotx])
        rw [ih maxSize (l.eraseIdx pos), filter_eraseIdx_of_not hx hqx]
      | none => rfl
    · simp only [hlen, if_false]

/-- With enough fuel, the loop ends under the limit, or everything left is
protected (eviction stops even while over limit when nothing is removable). -/
lemma enforceLoop_length_or_protected :
    ∀ (fuel maxSize : Nat) (l : List ClipboardItem), l.length ≤ fuel →
      (enforceLoop fuel maxSize l).length ≤ maxSize ∨
        ∀ x ∈ enforceLoop fuel maxSize l, isProtected x = true := by
  intro fuel
  induction fuel with
  | zero =>
    intro maxSize l hl
    left
    simpa using Nat.le_trans (Nat.le_of_eq rfl) (Nat.le_trans hl (Nat.zero_le _))
  | succ fuel ih =>
    intro maxSize l hl
    rw [enforceLoop]
    by_cases hlen : maxSize < l.length
    · simp only [hlen, if_true]
      cases hr : rposition (fun i => !i.pinned && !i.favorited) l with
      | some pos =>
        obtain ⟨x, hx, _⟩ := rposition_some hr
        have hpos : pos < l.length := by
          by_contra hc
          rw [List.get?_eq_none.mpr (by omega)] at hx
          cases hx
        have : (l.eraseIdx pos).length ≤ fuel := by
          rw [List.length_eraseIdx_of_lt hpos]; omega
        exact ih maxSize (l.eraseIdx pos) this
      | none =>
        right
        intro x hxmem
        have := rposition_none hr x hxmem
        have h2 := (removable_iff_not_protected x) ▸ this
        cases hP : isProtected x
        · simp [hP] at h2
        · rfl
    · simp only [hlen, if_false]
      left
      omega

/-- If everything is protected, eviction is the identity even over the limit. -/
lemma enforceLoop_all_protected {l : List ClipboardItem}
    (h : ∀ x ∈ l, isProtected x = true) (fuel maxSize : Nat) :
    enforceLoop fuel maxSize l = l := by
  cases fuel with
  | zero => rfl
  | succ fuel =>
    rw [enforceLoop]
    by_cases hlen : maxSize < l.length
    · simp only [hlen, if_true]
      cases hr : rposition (fun i => !i.pinned && !i.favorited) l with
      | some pos =>
        obtain ⟨x, hx, hpx⟩ := rposition_some hr
        have hmem : x ∈ l := List.get?_mem hx
        have := (removable_iff_not_protected x) ▸ hpx
        rw [h x hmem] at this
        simp at this
      | none => rfl
    · simp only [hlen, if_false]

/-- Under the limit, eviction does nothing. -/
lemma enforceLoop_of_le {maxSize : Nat} {l : List ClipboardItem}
    (h : ¬ maxSize < l.length) (fuel : Nat) :
    enforceLoop fuel maxSize l = l := by
  cases fuel with
  | zero => rfl
  | succ fuel => rw [enforceLoop]; simp only [h, if_false]

/-! ### State-shape lemmas for the operations -/

lemma enforce_fst_history (m : ClipboardManager) :
    (m.enforce_history_limit).1.history
      = enforceLoop m.history.length m.max_history_size m.history := rfl

lemma enforce_fst_fields (m : ClipboardManager) :
    (m.enforce_history_limit).1.last_pasted_text = m.last_pasted_text ∧
    (m.enforce_history_limit).1.last_pasted_image_hash = m.last_pasted_image_hash ∧
    (m.enforce_history_limit).1.last_added_text_hash = m.last_added_text_hash ∧
    (m.enforce_history_limit).1.max_history_size = m.max_history_size :=
  ⟨rfl, rfl, rfl, rfl⟩

lemma insert_item_history (m : ClipboardManager) (it : ClipboardItem) :
    (m.insert_item it).history
      = enforceLoop (insertAfterPinned it m.history).length m.max_history_size
          (insertAfterPinned it m.history) := rfl

lemma insert_item_fields (m : ClipboardManager) (it : ClipboardItem) :
    (m.insert_item it).last_pasted_text = m.last_pasted_text ∧
    (m.insert_item it).last_pasted_image_hash = m.last_pasted_image_hash ∧
    (m.insert_item it).last_added_text_hash = m.last_added_text_hash ∧
    (m.insert_item it).max_history_size = m.max_history_size :=
  ⟨rfl, rfl, rfl, rfl⟩

lemma should_skip_text_snd (m : ClipboardManager) (t : String) :
    (m.should_skip_text t).2 = m ∨
      (m.should_skip_text t).2 = { m with last_pasted_text := none } := by
  unfold should_skip_text
  repeat' split
  all_goals simp

lemma should_skip_text_snd_history (m : ClipboardManager) (t : String) :
    (m.should_skip_text t).2.history = m.history := by
  rcases should_skip_text_snd m t with h | h <;> rw [h]

lemma should_skip_text_snd_max (m : ClipboardManager) (t : String) :
    (m.should_skip_text t).2.max_history_size = m.max_history_size := by
  rcases should_skip_text_snd m t with h | h <;> rw [h]

lemma should_skip_text_false (m : ClipboardManager) (t : String)
    (h : (m.should_skip_text t).1 = false) : (m.should_skip_text t).2 = m := by
  unfold should_skip_text at h ⊢
  by_cases hb : isBlank t = true
  · rw [if_pos hb] at h; cases h
  · rw [if_neg hb] at h ⊢
    by_cases hg : (strContains t FILE_URI_PREFIX && strContains t GIF_CACHE_MARKER) = true
    · rw [if_pos hg] at h; cases h
    · rw [if_neg hg] at h ⊢
      cases hlp : m.last_pasted_text with
      | none => rfl
      | some pasted =>
        rw [hlp] at h
        simp only at h ⊢
        by_cases hc : (decide (pasted = t) || strContains t pasted) = true
        · rw [if_pos hc] at h; cases h
        · rw [if_neg hc]

lemma should_skip_image_snd (m : ClipboardManager) (hash : Nat) :
    (m.should_skip_image hash).2 = m ∨
      (m.should_skip_image hash).2 = { m with last_pasted_image_hash := none } := by
  unfold should_skip_image
  repeat' split
  all_goals simp

lemma should_skip_image_snd_history (m : ClipboardManager) (hash : Nat) :
    (m.should_skip_image hash).2.history = m.history := by
  rcases should_skip_image_snd m hash with h | h <;> rw [h]

lemma should_skip_image_snd_max (m : ClipboardManager) (hash : Nat) :
    (m.should_skip_image hash).2.max_history_size = m.max_history_size := by
  rcases should_skip_image_snd m hash with h | h <;> rw [h]

/-- `remove_duplicate_text_from_history` erases one index (a vacuous erase at
`length` when no duplicate exists) and preserves the other fields. -/
lemma remove_duplicate_history (m : ClipboardManager) (t : String) :
    ∃ j, (m.remove_duplicate_text_from_history t).history = m.history.eraseIdx j := by
  unfold remove_duplicate_text_from_history
  cases h : m.history.findIdx? (dupTextPred t) with
  | some pos => exact ⟨pos, rfl⟩
  | none =>
    exact ⟨m.history.length,
      by rw [List.eraseIdx_of_length_le (le_refl m.history.length)]⟩

lemma remove_duplicate_fields (m : ClipboardManager) (t : String) :
    (m.remove_duplicate_text_from_history t).last_pasted_text = m.last_pasted_text ∧
    (m.remove_duplicate_text_from_history t).last_pasted_image_hash
      = m.last_pasted_image_hash ∧
    (m.remove_duplicate_text_from_history t).last_added_text_hash
      = m.last_added_text_hash ∧
    (m.remove_duplicate_text_from_history t).max_history_size = m.max_history_size := by
  unfold remove_duplicate_text_from_history
  cases h : m.history.findIdx? (dupTextPred t) with
  | some pos => exact ⟨rfl, rfl, rfl, rfl⟩
  | none => exact ⟨rfl, rfl, rfl, rfl⟩

/-! ### `findIdx?` helpers (for `toggle_pin` / `move_item_to_top`) -/

lemma findIdx?_get {p : ClipboardItem → Bool} {l : List ClipboardItem} {i : Nat}
    (h : l.findIdx? p = some i) : ∃ x, l.get? i = some x ∧ p x = true := by
  obtain ⟨hlt, hp, _⟩ := List.findIdx?_eq_some_iff_getElem.mp h
  exact ⟨l[i], by simp [List.get?_eq_getElem?, List.getElem?_eq_getElem hlt], hp⟩

lemma findIdx?_min {p : ClipboardItem → Bool} {l : List ClipboardItem} {i : Nat}
    (h : l.findIdx? p = some i) :
    ∀ j x, j < i → l.get? j = some x → p x = false := by
  obtain ⟨hlt, _, hmin⟩ := List.findIdx?_eq_some_iff_getElem.mp h
  intro j x hj hx
  have hjlt : j < l.length := by
    by_contra hc
    rw [List.get?_eq_none.mpr (by omega)] at hx
    cases hx
  have hxeq : l[j] = x := by
    have := List.getElem?_eq_getElem hjlt
    rw [List.get?_eq_getElem?, this] at hx
    cases hx
    rfl
  have := hmin j hj
  rw [hxeq] at this
  simpa using this

/-- Erasing at an index strictly after the first match leaves the first match. -/
lemma findIdx?_eraseIdx_later {p : ClipboardItem → Bool} :
    ∀ {l : List ClipboardItem} {i cur : Nat}, l.findIdx? p = some i → i < cur →
      (l.eraseIdx cur).findIdx? p = some i := by
  intro l
  induction l with
  | nil => intro i cur h; simp at h
  | cons x xs ih =>
    intro i cur h hic
    rw [List.findIdx?_cons] at h
    by_cases hpx : p x
    · simp only [hpx, if_true] at h
      cases h
      obtain ⟨c, rfl⟩ : ∃ c, cur = c + 1 := ⟨cur - 1, by omega⟩
      rw [List.eraseIdx_cons_succ, List.findIdx?_cons]
      simp [hpx]
    · simp only [hpx, if_false] at h
      rw [List.findIdx?_succ] at h
      cases hxs : xs.findIdx? p with
      | none => rw [hxs] at h; cases h
      | some i' =>
        rw [hxs] at h
        simp only [Option.map_some'] at h
        cases h
        obtain ⟨c, rfl⟩ : ∃ c, cur = c + 1 := ⟨cur - 1, by omega⟩
        rw [List.eraseIdx_cons_succ, List.findIdx?_cons]
        simp only [hpx, if_false]
        rw [List.findIdx?_succ, ih hxs (by omega)]
        rfl

/-! ### `set` helpers (for `toggle_favorite`) -/

lemma eraseIdx_set (l : List ClipboardItem) (n : Nat) (a : ClipboardItem) :
    (l.set n a).eraseIdx n = l.eraseIdx n := by
  induction l generalizing n with
  | nil => rfl
  | cons x xs ih =>
    cases n with
    | zero => simp
    | succ n' => simp [List.eraseIdx_cons_succ, ih]

lemma pinnedFirst_set {l : List ClipboardItem} {pos : Nat} {it it' : ClipboardItem}
    (h : PinnedFirst l) (hget : l.get? pos = some it)
    (hp : it'.pinned = it.pinned) : PinnedFirst (l.set pos it') := by
  induction l generalizing pos with
  | nil => cases hget
  | cons y ys ih =>
    rcases List.pairwise_cons.mp h with ⟨hrel, htail⟩
    cases pos with
    | zero =>
      cases hget
      refine List.pairwise_cons.mpr ⟨?_, htail⟩
      intro z hz hpz
      rw [hp]
      exact hrel z hz hpz
    | succ pos' =>
      have hget' : ys.get? pos' = some it := by simpa using hget
      refine List.pairwise_cons.mpr ⟨?_, ih htail hget'⟩
      intro z hz hpz
      rcases List.mem_or_eq_of_mem_set hz with hz | rfl
      · exact hrel z hz hpz
      · exact hrel it (List.get?_mem hget') (hp ▸ hpz)

/-! ### Invariant preservation, operation by operation -/

lemma insert_item_inv {m : ClipboardManager} (it : ClipboardItem)
    (h : PinnedFirst m.history) :
    PinnedFirst (m.insert_item it).history ∧
    GroupOrderPreserved m.history (m.insert_item it).history := by
  rw [insert_item_history]
  constructor
  · exact pinnedFirst_of_sublist (enforceLoop_sublist _ _ _)
      (pinnedFirst_insertAfterPinned it h)
  · exact groupOrder_of_exists_erase
      (sublist_insertAfterPinned_elim (enforceLoop_sublist _ _ _))

lemma remove_then_insert_inv {m : ClipboardManager} (t : String) (it : ClipboardItem)
    (h : PinnedFirst m.history) :
    PinnedFirst ((m.remove_duplicate_text_from_history t).insert_item it).history ∧
    GroupOrderPreserved m.history
      ((m.remove_duplicate_text_from_history t).insert_item it).history := by
  obtain ⟨j, hj⟩ := remove_duplicate_history m t
  have hsub : (m.remove_duplicate_text_from_history t).history.Sublist m.history := by
    rw [hj]; exact List.eraseIdx_sublist _ _
  obtain ⟨h1, h2⟩ := insert_item_inv it (pinnedFirst_of_sublist hsub h)
  refine ⟨h1, ?_⟩
  obtain ⟨i, hi1, hi2⟩ := h2
  exact ⟨i, hi1.trans (hsub.filter _), hi2.trans (hsub.filter _)⟩

lemma add_text_snd_history_cases (m : ClipboardManager) (t : String)
    (html : Option String) (newId : String) (now : Int) :
    (m.add_text t html newId now).2.history = m.history ∨
    ∃ it, (m.add_text t html newId now).2.history
        = (((m.should_skip_text t).2.remove_duplicate_text_from_history t).insert_item
            it).history := by
  simp only [add_text]
  by_cases h1 : (m.should_skip_text t).1 = true
  · simp only [h1, if_true]
    exact Or.inl (should_skip_text_snd_history m t)
  · simp only [h1, if_false]
    by_cases h2 : (m.should_skip_text t).2.last_added_text_hash
        = some (calculate_hash t)
    · simp only [h2, if_true]
      exact Or.inl (should_skip_text_snd_history m t)
    · simp only [h2, if_false]
      by_cases h3 : (m.should_skip_text t).2.is_duplicate_text t = true
      · simp only [h3, if_true]
        exact Or.inl (should_skip_text_snd_history m t)
      · simp only [h3, if_false]
        exact Or.inr ⟨_, rfl⟩

lemma add_text_inv (m : ClipboardManager) (t : String) (html : Option String)
    (newId : String) (now : Int) (h : PinnedFirst m.history) :
    PinnedFirst ((m.add_text t html newId now).2.history) ∧
    GroupOrderPreserved m.history ((m.add_text t html newId now).2.history) := by
  rcases add_text_snd_history_cases m t html newId now with hc | ⟨it, hc⟩
  · rw [hc]
    exact ⟨h, groupOrder_of_sublist (List.Sublist.refl _)⟩
  · rw [hc]
    have hbase : PinnedFirst (m.should_skip_text t).2.history := by
      rw [should_skip_text_snd_history]; exact h
    have := remove_then_insert_inv t it hbase
    rwa [should_skip_text_snd_history] at this

lemma add_image_snd_history_cases (m : ClipboardManager) (hash : Nat)
    (conv : Option String) (w hgt : Nat) (newId : String) (now : Int) :
    (m.add_image hash conv w hgt newId now).2.history = m.history ∨
    ∃ it, (m.add_image hash conv w hgt newId now).2.history
        = ((m.should_skip_image hash).2.insert_item it).history := by
  simp only [add_image]
  by_cases h1 : (m.should_skip_image hash).1 = true
  · simp only [h1, if_true]
    exact Or.inl (should_skip_image_snd_history m hash)
  · simp only [h1, if_false]
    cases conv with
    | none => exact Or.inl (should_skip_image_snd_history m hash)
    | some b64 => exact Or.inr ⟨_, rfl⟩

lemma add_image_inv (m : ClipboardManager) (hash : Nat) (conv : Option String)
    (w hgt : Nat) (newId : String) (now : Int) (h : PinnedFirst m.history) :
    PinnedFirst ((m.add_image hash conv w hgt newId now).2.history) ∧
    GroupOrderPreserved m.history ((m.add_image hash conv w hgt newId now).2.history) := by
  rcases add_image_snd_history_cases m hash conv w hgt newId now with hc | ⟨it, hc⟩
  · rw [hc]
    exact ⟨h, groupOrder_of_sublist (List.Sublist.refl _)⟩
  · rw [hc]
    have hbase : PinnedFirst (m.should_skip_image hash).2.history := by
      rw [should_skip_image_snd_history]; exact h
    have := insert_item_inv it hbase
    rwa [should_skip_image_snd_history] at this

lemma toggle_pin_inv (m : ClipboardManager) (id : String) (h : PinnedFirst m.history) :
    PinnedFirst ((m.toggle_pin id).2.history) ∧
    GroupOrderPreserved m.history ((m.toggle_pin id).2.history) := by
  unfold toggle_pin
  split
  · exact ⟨h, groupOrder_of_sublist (List.Sublist.refl _)⟩
  · split
    · exact ⟨h, groupOrder_of_sublist (List.Sublist.refl _)⟩
    · rename_i s1 pos hf s2 it hg
      dsimp only
      have hsub : (m.history.eraseIdx pos).Sublist m.history := List.eraseIdx_sublist _ _
      constructor
      · exact pinnedFirst_insertAfterPinned _ (pinnedFirst_of_sublist hsub h)
      · obtain ⟨i, hi⟩ := exists_eraseIdx_insertAfterPinned
          { it with pinned := !it.pinned } (m.history.eraseIdx pos)
        exact groupOrder_of_exists_erase ⟨i, by rw [hi]; exact hsub⟩

lemma toggle_favorite_inv (m : ClipboardManager) (id : String)
    (h : PinnedFirst m.history) :
    PinnedFirst ((m.toggle_favorite id).2.history) ∧
    GroupOrderPreserved m.history ((m.toggle_favorite id).2.history) := by
  unfold toggle_favorite
  split
  · exact ⟨h, groupOrder_of_sublist (List.Sublist.refl _)⟩
  · split
    · exact ⟨h, groupOrder_of_sublist (List.Sublist.refl _)⟩
    · rename_i s1 pos hf s2 it hg
      dsimp only
      constructor
      · exact pinnedFirst_set h hg rfl
      · exact groupOrder_of_exists_erase
          ⟨pos, by rw [eraseIdx_set]; exact List.eraseIdx_sublist _ _⟩

lemma remove_item_inv (m : ClipboardManager) (id : String) (h : PinnedFirst m.history) :
    PinnedFirst ((m.remove_item id).history) ∧
    GroupOrderPreserved m.history ((m.remove_item id).history) := by
  unfold remove_item
  exact ⟨pinnedFirst_of_sublist (List.filter_sublist _) h,
    groupOrder_of_sublist (List.filter_sublist _)⟩

lemma clear_inv (m : ClipboardManager) (h : PinnedFirst m.history) :
    PinnedFirst (m.clear.history) ∧ GroupOrderPreserved m.history (m.clear.history) := by
  unfold clear
  exact ⟨pinnedFirst_of_sublist (List.filter_sublist _) h,
    groupOrder_of_sublist (List.filter_sublist _)⟩

lemma cleanup_old_items_inv (m : ClipboardManager) (mins : Nat) (now : Int)
    (h : PinnedFirst m.history) :
    PinnedFirst ((m.cleanup_old_items mins now).2.history) ∧
    GroupOrderPreserved m.history ((m.cleanup_old_items mins now).2.history) := by
  unfold cleanup_old_items
  by_cases h0 : mins = 0
  · simp only [h0, if_pos rfl]
    exact ⟨h, groupOrder_of_sublist (List.Sublist.refl _)⟩
  · simp only [h0, if_false]
    exact ⟨pinnedFirst_of_sublist (List.filter_sublist _) h,
      groupOrder_of_sublist (List.filter_sublist _)⟩

lemma set_max_history_size_inv (m : ClipboardManager) (n : Nat)
    (h : PinnedFirst m.history) :
    PinnedFirst ((m.set_max_history_size n).history) ∧
    GroupOrderPreserved m.history ((m.set_max_history_size n).history) := by
  unfold set_max_history_size
  exact ⟨pinnedFirst_of_sublist (enforceLoop_sublist _ _ _) h,
    groupOrder_of_sublist (enforceLoop_sublist _ _ _)⟩

lemma move_item_to_top_inv (m : ClipboardManager) (id : String)
    (h : PinnedFirst m.history) :
    PinnedFirst ((m.move_item_to_top id).2.history) ∧
    GroupOrderPreserved m.history ((m.move_item_to_top id).2.history) := by
  unfold move_item_to_top
  split
  · exact ⟨h, groupOrder_of_sublist (List.Sublist.refl _)⟩
  · split
    · exact ⟨h, groupOrder_of_sublist (List.Sublist.refl _)⟩
    · rename_i s1 cur hf s2 it hg
      dsimp only
      have hsub : (m.history.eraseIdx cur).Sublist m.history := List.eraseIdx_sublist _ _
      by_cases hpin : it.pinned = true
      · rw [if_pos hpin]
        by_cases hc : (0 : Nat) = cur
        · rw [if_pos hc]
          exact ⟨h, groupOrder_of_sublist (List.Sublist.refl _)⟩
        · rw [if_neg hc]
          dsimp only
          rw [List.insertIdx_zero]
          constructor
          · refine List.pairwise_cons.mpr ⟨?_, pinnedFirst_of_sublist hsub h⟩
            intro y _ _
            exact hpin
          · exact groupOrder_of_exists_erase
              ⟨0, by rw [List.eraseIdx_cons_zero]; exact hsub⟩
      · have hmem : it ∈ m.history := List.get?_mem hg
        have hne : m.history.findIdx? (fun i => !i.pinned) ≠ none := by
          intro hnone
          have := List.findIdx?_eq_none_iff.mp hnone it hmem
          simp [hpin] at this
        obtain ⟨i0, hi0⟩ := Option.ne_none_iff_exists'.mp hne
        rw [if_neg hpin, hi0, Option.getD_some]
        have hle : i0 ≤ cur := by
          by_contra hgt
          have := findIdx?_min hi0 cur it (by omega) hg
          simp [hpin] at this
        by_cases hc : i0 = cur
        · rw [if_pos hc]
          exact ⟨h, groupOrder_of_sublist (List.Sublist.refl _)⟩
        · rw [if_neg hc]
          dsimp only
          have hlt : i0 < cur := by omega
          have hif : (m.history.eraseIdx cur).findIdx? (fun i => !i.pinned) = some i0 :=
            findIdx?_eraseIdx_later hi0 hlt
          have heq : (m.history.eraseIdx cur).insertIdx i0 it
              = insertAfterPinned it (m.history.eraseIdx cur) := by
            unfold insertAfterPinned
            rw [hif]
            rfl
          rw [heq]
          constructor
          · exact pinnedFirst_insertAfterPinned _ (pinnedFirst_of_sublist hsub h)
          · obtain ⟨i, hi⟩ :=
              exists_eraseIdx_insertAfterPinned it (m.history.eraseIdx cur)
            exact groupOrder_of_exists_erase ⟨i, by rw [hi]; exact hsub⟩

/-- Stable partition of the persisted list: pinned first, both groups in order. -/
lemma pinnedFirst_partition (items : List ClipboardItem) :
    PinnedFirst (items.filter (fun i => i.pinned) ++ items.filter (fun i => !i.pinned)) := by
  rw [PinnedFirst, List.pairwise_append]
  refine ⟨List.pairwise_of_forall_mem_list ?_, List.pairwise_of_forall_mem_list ?_, ?_⟩
  · intro a ha b _ hb'
    simpa using List.of_mem_filter ha
  · intro a _ b hb hb'
    have := List.of_mem_filter hb
    simp at this
    simp [this] at hb'
  · intro a ha b _ hb'
    simpa using List.of_mem_filter ha

lemma load_history_snd_history (m : ClipboardManager) (items : List ClipboardItem) :
    (m.load_history items).history
      = enforceLoop
          (items.filter (fun i => i.pinned) ++ items.filter (fun i => !i.pinned)).length
          m.max_history_size
          (items.filter (fun i => i.pinned) ++ items.filter (fun i => !i.pinned)) := by
  simp only [load_history]
  repeat' split
  all_goals rfl

lemma filter_pinned_partition (items : List ClipboardItem) :
    (items.filter (fun i => i.pinned) ++ items.filter (fun i => !i.pinned)).filter
        (fun x => x.pinned)
      = items.filter (fun i => i.pinned) := by
  rw [List.filter_append]
  have h1 : (items.filter (fun i => i.pinned)).filter (fun x => x.pinned)
      = items.filter (fun i => i.pinned) := by
    rw [List.filter_eq_self]
    intro a ha
    simpa using List.of_mem_filter ha
  have h2 : (items.filter (fun i => !i.pinned)).filter (fun x => x.pinned) = [] := by
    rw [List.filter_eq_nil_iff]
    intro a ha
    have := List.of_mem_filter ha
    simp at this
    simp [this]
  rw [h1, h2, List.append_nil]

lemma filter_unpinned_partition (items : List ClipboardItem) :
    (items.filter (fun i => i.pinned) ++ items.filter (fun i => !i.pinned)).filter
        (fun x => !x.pinned)
      = items.filter (fun i => !i.pinned) := by
  rw [List.filter_append]
  have h1 : (items.filter (fun i => i.pinned)).filter (fun x => !x.pinned) = [] := by
    rw [List.filter_eq_nil_iff]
    intro a ha
    have := List.of_mem_filter ha
    simp [this]
  have h2 : (items.filter (fun i => !i.pinned)).filter (fun x => !x.pinned)
      = items.filter (fun i => !i.pinned) := by
    rw [List.filter_eq_self]
    intro a ha
    simpa using List.of_mem_filter ha
  rw [h1, h2, List.nil_append]

/-- Any sublist of the pinned-first partition of `items` preserves the groups. -/
lemma groupOrder_partition_sub {items L : List ClipboardItem}
    (hsub : L.Sublist
      (items.filter (fun i => i.pinned) ++ items.filter (fun i => !i.pinned))) :
    GroupOrderPreserved items L := by
  refine ⟨L.length, ?_, ?_⟩ <;> rw [List.eraseIdx_of_length_le (le_refl _)]
  · exact (filter_pinned_partition items) ▸ hsub.filter _
  · exact (filter_unpinned_partition items) ▸ hsub.filter _

lemma load_history_inv (m : ClipboardManager) (items : List ClipboardItem) :
    PinnedFirst ((m.load_history items).history) ∧
    GroupOrderPreserved items ((m.load_history items).history) := by
  rw [load_history_snd_history]
  have hsub := enforceLoop_sublist
    (items.filter (fun i => i.pinned) ++ items.filter (fun i => !i.pinned)).length
    m.max_history_size
    (items.filter (fun i => i.pinned) ++ items.filter (fun i => !i.pinned))
  exact ⟨pinnedFirst_of_sublist hsub (pinnedFirst_partition items),
    groupOrder_partition_sub hsub⟩

lemma new_pinnedFirst (maxS : Nat) (disk : Option (List ClipboardItem)) :
    PinnedFirst (ClipboardManager.new maxS disk).history := by
  unfold ClipboardManager.new
  cases disk with
  | none => exact List.Pairwise.nil
  | some items => exact (load_history_inv _ items).1

lemma mark_as_pasted_history (m : ClipboardManager) (it : ClipboardItem) :
    (m.mark_as_pasted it).history = m.history := by
  unfold mark_as_pasted
  repeat' split
  all_goals rfl

lemma mark_text_as_pasted_history (m : ClipboardManager) (t : String) :
    (m.mark_text_as_pasted t).history = m.history := rfl

end ClipboardManager

open ClipboardManager in
/-- The states a `ClipboardManager` can be in: constructed (hydrating from
disk) and closed under every public mutation. -/
inductive Reachable : ClipboardManager → Prop
  | new (maxSize : Nat) (disk : Option (List ClipboardItem)) :
      Reachable (ClipboardManager.new maxSize disk)
  | add_text {m : ClipboardManager} (t : String) (html : Option String)
      (idv : String) (ts : Int) :
      Reachable m → Reachable (m.add_text t html idv ts).2
  | add_image {m : ClipboardManager} (hash : Nat) (conv : Option String)
      (w hgt : Nat) (idv : String) (ts : Int) :
      Reachable m → Reachable (m.add_image hash conv w hgt idv ts).2
  | toggle_pin {m : ClipboardManager} (idv : String) :
      Reachable m → Reachable (m.toggle_pin idv).2
  | toggle_favorite {m : ClipboardManager} (idv : String) :
      Reachable m → Reachable (m.toggle_favorite idv).2
  | remove_item {m : ClipboardManager} (idv : String) :
      Reachable m → Reachable (m.remove_item idv)
  | clear {m : ClipboardManager} : Reachable m → Reachable m.clear
  | move_item_to_top {m : ClipboardManager} (idv : String) :
      Reachable m → Reachable (m.move_item_to_top idv).2
  | cleanup_old_items {m : ClipboardManager} (mins : Nat) (now : Int) :
      Reachable m → Reachable (m.cleanup_old_items mins now).2
  | set_max_history_size {m : ClipboardManager} (n : Nat) :
      Reachable m → Reachable (m.set_max_history_size n)
  | load_history {m : ClipboardManager} (items : List ClipboardItem) :
      Reachable m → Reachable (m.load_history items)
  | mark_as_pasted {m : ClipboardManager} (item : ClipboardItem) :
      Reachable m → Reachable (m.mark_as_pasted item)
  | mark_text_as_pasted {m : ClipboardManager} (t : String) :
      Reachable m → Reachable (m.mark_text_as_pasted t)

open ClipboardManager in
/-- C1: in every reachable `HistoryStore` state every pinned item precedes
every unpinned item, and each public operation (`add_text`, `add_image`,
`toggle_pin`, `toggle_favorite`, `remove_item`, `clear`, `move_item_to_top`,
`cleanup_old_items`, loading from disk) preserves the invariant while keeping
the relative order within the pinned group and within the unpinned group,
except for the single item the operation deliberately moves or inserts. -/
theorem pinned_always_precede_unpinned :
    (∀ m, Reachable m → PinnedFirst m.history) ∧
    (∀ (m : ClipboardManager) (t : String) (html : Option String) (idv : String)
        (ts : Int), PinnedFirst m.history →
      PinnedFirst ((m.add_text t html idv ts).2.history) ∧
      GroupOrderPreserved m.history ((m.add_text t html idv ts).2.history)) ∧
    (∀ (m : ClipboardManager) (hash : Nat) (conv : Option String) (w hgt : Nat)
        (idv : String) (ts : Int), PinnedFirst m.history →
      PinnedFirst ((m.add_image hash conv w hgt idv ts).2.history) ∧
      GroupOrderPreserved m.history ((m.add_image hash conv w hgt idv ts).2.history)) ∧
    (∀ (m : ClipboardManager) (idv : String), PinnedFirst m.history →
      PinnedFirst ((m.toggle_pin idv).2.history) ∧
      GroupOrderPreserved m.history ((m.toggle_pin idv).2.history)) ∧
    (∀ (m : ClipboardManager) (idv : String), PinnedFirst m.history →
      PinnedFirst ((m.toggle_favorite idv).2.history) ∧
      GroupOrderPreserved m.history ((m.toggle_favorite idv).2.history)) ∧
    (∀ (m : ClipboardManager) (idv : String), PinnedFirst m.history →
      PinnedFirst ((m.remove_item idv).history) ∧
      GroupOrderPreserved m.history ((m.remove_item idv).history)) ∧
    (∀ (m : ClipboardManager), PinnedFirst m.history →
      PinnedFirst (m.clear.history) ∧
      GroupOrderPreserved m.history (m.clear.history)) ∧
    (∀ (m : ClipboardManager) (idv : String), PinnedFirst m.history →
      PinnedFirst ((m.move_item_to_top idv).2.history) ∧
      GroupOrderPreserved m.history ((m.move_item_to_top idv).2.history)) ∧
    (∀ (m : ClipboardManager) (mins : Nat) (now : Int), PinnedFirst m.history →
      PinnedFirst ((m.cleanup_old_items mins now).2.history) ∧
      GroupOrderPreserved m.history ((m.cleanup_old_items mins now).2.history)) ∧
    (∀ (m : ClipboardManager) (items : List ClipboardItem),
      PinnedFirst ((m.load_history items).history) ∧
      GroupOrderPreserved items ((m.load_history items).history)) := by
  have base : ∀ m, Reachable m → PinnedFirst m.history := by
    intro m hm
    induction hm with
    | new maxSize disk => exact new_pinnedFirst maxSize disk
    | add_text t html idv ts _ ih => exact (add_text_inv _ t html idv ts ih).1
    | add_image hash conv w hgt idv ts _ ih =>
      exact (add_image_inv _ hash conv w hgt idv ts ih).1
    | toggle_pin idv _ ih => exact (toggle_pin_inv _ idv ih).1
    | toggle_favorite idv _ ih => exact (toggle_favorite_inv _ idv ih).1
    | remove_item idv _ ih => exact (remove_item_inv _ idv ih).1
    | clear _ ih => exact (clear_inv _ ih).1
    | move_item_to_top idv _ ih => exact (move_item_to_top_inv _ idv ih).1
    | cleanup_old_items mins now _ ih => exact (cleanup_old_items_inv _ mins now ih).1
    | set_max_history_size n _ ih => exact (set_max_history_size_inv _ n ih).1
    | load_history items _ _ => exact (load_history_inv _ items).1
    | mark_as_pasted item _ ih =>
      rw [mark_as_pasted_history]
      exact ih
    | mark_text_as_pasted t _ ih =>
      rw [mark_text_as_pasted_history]
      exact ih
  exact ⟨base, add_text_inv, add_image_inv, toggle_pin_inv, toggle_favorite_inv,
    remove_item_inv, clear_inv, move_item_to_top_inv, cleanup_old_items_inv,
    load_history_inv⟩

/-- Witness for C1 at concrete inputs: the freshly constructed store is
reachable and satisfies the invariant, and the `toggle_pin` clause applies to
it. -/
theorem pinned_always_precede_unpinned_witness :
    Reachable (ClipboardManager.new 50 none) ∧
    PinnedFirst (ClipboardManager.new 50 none).history ∧
    PinnedFirst (((ClipboardManager.new 50 none).toggle_pin "a").2.history) :=
  ⟨Reachable.new 50 none,
   pinned_always_precede_unpinned.1 _ (Reachable.new 50 none),
   (pinned_always_precede_unpinned.2.2.2.1 _ "a"
     (pinned_always_precede_unpinned.1 _ (Reachable.new 50 none))).1⟩

open ClipboardManager in
lemma add_text_length_bound (m : ClipboardManager) (t : String)
    (html : Option String) (idv : String) (ts : Int)
    (h : m.history.length ≤ m.max_history_size) :
    (m.add_text t html idv ts).2.history.length ≤ m.max_history_size ∨
      ∀ x ∈ (m.add_text t html idv ts).2.history, isProtected x = true := by
  rcases add_text_snd_history_cases m t html idv ts with hc | ⟨it, hc⟩
  · rw [hc]; exact Or.inl h
  · rw [hc, insert_item_history]
    have hmax : ((m.should_skip_text t).2.remove_duplicate_text_from_history
        t).max_history_size = m.max_history_size := by
      rw [(remove_duplicate_fields _ t).2.2.2, should_skip_text_snd_max]
    have := enforceLoop_length_or_protected
      (insertAfterPinned it
        ((m.should_skip_text t).2.remove_duplicate_text_from_history t).history).length
      ((m.should_skip_text t).2.remove_duplicate_text_from_history t).max_history_size
      (insertAfterPinned it
        ((m.should_skip_text t).2.remove_duplicate_text_from_history t).history)
      (le_refl _)
    rw [hmax] at this
    rw [hmax]
    exact this

open ClipboardManager in
lemma add_image_length_bound (m : ClipboardManager) (hash : Nat)
    (conv : Option String) (w hgt : Nat) (idv : String) (ts : Int)
    (h : m.history.length ≤ m.max_history_size) :
    (m.add_image hash conv w hgt idv ts).2.history.length ≤ m.max_history_size ∨
      ∀ x ∈ (m.add_image hash conv w hgt idv ts).2.history, isProtected x = true := by
  rcases add_image_snd_history_cases m hash conv w hgt idv ts with hc | ⟨it, hc⟩
  · rw [hc]; exact Or.inl h
  · rw [hc, insert_item_history]
    have hmax : (m.should_skip_image hash).2.max_history_size = m.max_history_size :=
      should_skip_image_snd_max m hash
    have := enforceLoop_length_or_protected
      (insertAfterPinned it (m.should_skip_image hash).2.history).length
      (m.should_skip_image hash).2.max_history_size
      (insertAfterPinned it (m.should_skip_image hash).2.history)
      (le_refl _)
    rw [hmax] at this
    rw [hmax]
    exact this

open ClipboardManager in
/-- C2: an admission into a within-limit store leaves the history within
`max_history_size` unless every remaining item is protected; eviction never
removes a pinned or favorited item; it targets the tail-most
unpinned-and-unfavorited item; and it stops, even while over the limit, when
no removable item exists. -/
theorem bounded_size_protected_eviction :
    (∀ (m : ClipboardManager) (t : String) (html : Option String) (idv : String)
        (ts : Int), m.history.length ≤ m.max_history_size →
      (m.add_text t html idv ts).2.history.length ≤ m.max_history_size ∨
        ∀ x ∈ (m.add_text t html idv ts).2.history, isProtected x = true) ∧
    (∀ (m : ClipboardManager) (hash : Nat) (conv : Option String) (w hgt : Nat)
        (idv : String) (ts : Int), m.history.length ≤ m.max_history_size →
      (m.add_image hash conv w hgt idv ts).2.history.length ≤ m.max_history_size ∨
        ∀ x ∈ (m.add_image hash conv w hgt idv ts).2.history, isProtected x = true) ∧
    (∀ (q : ClipboardItem → Bool), (∀ x, q x = true → isProtected x = true) →
      ∀ (fuel maxS : Nat) (l : List ClipboardItem),
        (enforceLoop fuel maxS l).filter q = l.filter q) ∧
    (∀ (fuel maxS : Nat) (l : List ClipboardItem),
      (∀ x ∈ l, isProtected x = true) → enforceLoop fuel maxS l = l) ∧
    (∀ (l : List ClipboardItem) (pos : Nat),
      rposition (fun i => !i.pinned && !i.favorited) l = some pos →
      ∃ x, l.get? pos = some x ∧ isProtected x = false ∧
        ∀ j y, pos < j → l.get? j = some y → isProtected y = true) := by
  refine ⟨add_text_length_bound, add_image_length_bound,
    fun q hq fuel maxS l => enforceLoop_filter_protected hq fuel maxS l,
    fun fuel maxS l h => enforceLoop_all_protected h fuel maxS, ?_⟩
  intro l pos hr
  obtain ⟨x, hx, hpx⟩ := rposition_some hr
  refine ⟨x, hx, ?_, ?_⟩
  · have := (removable_iff_not_protected x) ▸ hpx
    cases hP : isProtected x
    · rfl
    · rw [hP] at this; simp at this
  · intro j y hj hy
    have := rposition_last hr j y hj hy
    have h2 := (removable_iff_not_protected y) ▸ this
    cases hP : isProtected y
    · rw [hP] at h2; simp at h2
    · rfl

/-- A two-item scenario store for the C2 witness: a favorited item and a plain
item under limit 1. -/
def witnessStoreC2 : ClipboardManager :=
  ⟨[{ id := "p", content := ClipboardContent.Text "P", timestamp := 0,
      pinned := false, favorited := true, preview := "P" },
    { id := "q", content := ClipboardContent.Text "Q", timestamp := 0,
      pinned := false, favorited := false, preview := "Q" }], none, none, none, 2⟩

open ClipboardManager in
/-- Witness for C2 at concrete inputs: admitting into a full two-slot store
stays within the limit, and `rposition` picks the tail-most removable item. -/
theorem bounded_size_protected_eviction_witness :
    witnessStoreC2.history.length ≤ witnessStoreC2.max_history_size ∧
    ((witnessStoreC2.add_text "A" none "i" 0).2.history.length
        ≤ witnessStoreC2.max_history_size ∨
      ∀ x ∈ (witnessStoreC2.add_text "A" none "i" 0).2.history,
        isProtected x = true) ∧
    (∀ x, isProtected x = true → isProtected x = true) ∧
    rposition (fun i => !i.pinned && !i.favorited) witnessStoreC2.history = some 1 ∧
    (∃ x, witnessStoreC2.history.get? 1 = some x ∧ isProtected x = false ∧
      ∀ j y, 1 < j → witnessStoreC2.history.get? j = some y →
        isProtected y = true) :=
  ⟨by decide,
   bounded_size_protected_eviction.1 witnessStoreC2 "A" none "i" 0 (by decide),
   fun x h => h,
   by decide,
   bounded_size_protected_eviction.2.2.2.2 witnessStoreC2.history 1 (by decide)⟩

/-! ### Fine-grained `add_text` branch lemmas (C3, C4, C10) -/

namespace ClipboardManager

/-- When `should_skip_text` fires, `add_text` returns `None` with the state
`should_skip_text` produced. -/
lemma add_text_skip {m : ClipboardManager} {t : String} (html : Option String)
    (idv : String) (ts : Int) (h : (m.should_skip_text t).1 = true) :
    m.add_text t html idv ts = (none, (m.should_skip_text t).2) := by
  simp only [add_text]
  rw [if_pos h]

/-- When the slot is armed and the admitted text matches (equality or
containment), `should_skip_text` rejects it and clears the slot. -/
lemma should_skip_text_hit {m : ClipboardManager} {p t : String}
    (hlp : m.last_pasted_text = some p) (hb : isBlank t = false)
    (hg : (strContains t FILE_URI_PREFIX && strContains t GIF_CACHE_MARKER) = false)
    (hc : (decide (p = t) || strContains t p) = true) :
    m.should_skip_text t = (true, { m with last_pasted_text := none }) := by
  unfold should_skip_text
  rw [if_neg (by simp [hb]), if_neg (by simp [hg]), hlp]
  simp only
  rw [if_pos hc]

/-- With no armed slot and non-blank non-GIF text, `should_skip_text` passes. -/
lemma should_skip_text_no_slot {m : ClipboardManager} {t : String}
    (hb : isBlank t = false)
    (hg : (strContains t FILE_URI_PREFIX && strContains t GIF_CACHE_MARKER) = false)
    (hlp : m.last_pasted_text = none) :
    m.should_skip_text t = (false, m) := by
  unfold should_skip_text
  rw [if_neg (by simp [hb]), if_neg (by simp [hg]), hlp]

/-- When the rapid-copy guard already holds this text's hash, `add_text` is a
complete no-op. -/
lemma add_text_of_guard {m : ClipboardManager} {t : String} (html : Option String)
    (idv : String) (ts : Int) (hsst : m.should_skip_text t = (false, m))
    (hguard : m.last_added_text_hash = some (calculate_hash t)) :
    m.add_text t html idv ts = (none, m) := by
  simp only [add_text, hsst]
  rw [if_neg (by simp), if_pos hguard]

/-- When the admitted text is exactly the top unpinned item's text (and no
earlier guard fires), `add_text` returns `None` and updates only the
rapid-duplicate guard hash. -/
lemma add_text_dup_at_top {m : ClipboardManager} {t : String} (html : Option String)
    (idv : String) (ts : Int) (hskip : (m.should_skip_text t).1 = false)
    (hguard : m.last_added_text_hash ≠ some (calculate_hash t))
    (hdup : m.is_duplicate_text t = true) :
    m.add_text t html idv ts
      = (none, { m with last_added_text_hash := some (calculate_hash t) }) := by
  have hm := should_skip_text_false m t hskip
  simp only [add_text]
  rw [if_neg (by simp [hskip]), hm, if_neg hguard, if_pos hdup]

/-- A successful admission leaves the suppression slot alone, arms the guard
with the admitted text's hash, and implies `should_skip_text` passed. -/
lemma add_text_some_fields {m : ClipboardManager} {t : String}
    {html : Option String} {idv : String} {ts : Int}
    (h : (m.add_text t html idv ts).1.isSome = true) :
    (m.add_text t html idv ts).2.last_pasted_text = m.last_pasted_text ∧
    (m.add_text t html idv ts).2.last_added_text_hash
      = some (calculate_hash t) ∧
    (m.should_skip_text t).1 = false := by
  simp only [add_text] at h ⊢
  by_cases h1 : (m.should_skip_text t).1 = true
  · rw [if_pos h1] at h; cases h
  · rw [if_neg h1] at h ⊢
    have h1' : (m.should_skip_text t).1 = false := by
      cases hb : (m.should_skip_text t).1
      · rfl
      · exact absurd hb h1
    have hm := should_skip_text_false m t h1'
    by_cases h2 : (m.should_skip_text t).2.last_added_text_hash
        = some (calculate_hash t)
    · rw [if_pos h2] at h; cases h
    · rw [if_neg h2] at h ⊢
      by_cases h3 : (m.should_skip_text t).2.is_duplicate_text t = true
      · rw [if_pos h3] at h; cases h
      · rw [if_neg h3] at h ⊢
        refine ⟨?_, rfl, h1'⟩
        rw [(insert_item_fields _ _).1, (remove_duplicate_fields _ t).1, hm]

/-- `should_skip_text` passes on a state with the same suppression slot. -/
lemma should_skip_text_congr {m m' : ClipboardManager} (t : String)
    (hlp : m'.last_pasted_text = m.last_pasted_text)
    (h : (m.should_skip_text t).1 = false) :
    m'.should_skip_text t = (false, m') := by
  unfold should_skip_text at h ⊢
  by_cases hb : isBlank t = true
  · rw [if_pos hb] at h; cases h
  · rw [if_neg hb] at h ⊢
    by_cases hg : (strContains t FILE_URI_PREFIX && strContains t GIF_CACHE_MARKER) = true
    · rw [if_pos hg] at h; cases h
    · rw [if_neg hg] at h ⊢
      rw [hlp]
      cases hlpm : m.last_pasted_text with
      | none => rfl
      | some pasted =>
        rw [hlpm] at h
        simp only at h ⊢
        by_cases hc : (decide (pasted = t) || strContains t pasted) = true
        · rw [if_pos hc] at h; cases h
        · rw [if_neg hc]

/-- An admission that stored an item makes the immediately following admission
of the same text a `None`-returning no-op (the rapid-copy guard fires). -/
lemma add_text_some_then_none (m : ClipboardManager) (t : String)
    (html1 html2 : Option String) (id1 id2 : String) (ts1 ts2 : Int)
    (h : (m.add_text t html1 id1 ts1).1.isSome = true) :
    (m.add_text t html1 id1 ts1).2.add_text t html2 id2 ts2
      = (none, (m.add_text t html1 id1 ts1).2) := by
  obtain ⟨hlp, hguard, hskip⟩ := add_text_some_fields h
  have hsst : (m.add_text t html1 id1 ts1).2.should_skip_text t
      = (false, (m.add_text t html1 id1 ts1).2) :=
    should_skip_text_congr t hlp hskip
  exact add_text_of_guard html2 id2 ts2 hsst hguard

end ClipboardManager

/-! ### Concrete stores for scenario claims -/

/-- An empty store with the default limit and no armed slots. -/
def emptyStore : ClipboardManager := ⟨[], none, none, none, 50⟩

/-- A store whose top (only, unpinned) item is the text `"A"`. -/
def storeTopA : ClipboardManager :=
  ⟨[ClipboardItem.new_text "a0" 0 "A"], none, none, none, 50⟩

open ClipboardManager in
/-- C3 (as amended): if the first of two immediately successive `add_text`
calls with the same text stores an item, the second returns `None` and changes
nothing (so the pair stores at most one item); and when the text equals the
top unpinned item's text (with no earlier guard firing), `add_text` returns
`None`, leaves the history unchanged and updates only the rapid-duplicate
guard hash. -/
theorem dedup_second_admission_noop :
    (∀ (m : ClipboardManager) (t : String) (html1 html2 : Option String)
        (id1 id2 : String) (ts1 ts2 : Int),
      (m.add_text t html1 id1 ts1).1.isSome = true →
      (m.add_text t html1 id1 ts1).2.add_text t html2 id2 ts2
        = (none, (m.add_text t html1 id1 ts1).2)) ∧
    (∀ (m : ClipboardManager) (t : String) (html : Option String) (idv : String)
        (ts : Int),
      (m.should_skip_text t).1 = false →
      m.last_added_text_hash ≠ some (calculate_hash t) →
      m.is_duplicate_text t = true →
      m.add_text t html idv ts
        = (none, { m with last_added_text_hash := some (calculate_hash t) })) :=
  ⟨add_text_some_then_none,
   fun _ _ html idv ts h1 h2 h3 => add_text_dup_at_top html idv ts h1 h2 h3⟩

/-- Counterexample to C3 as stated: with the top unpinned item already `"A"`,
two immediately successive admissions of `"A"` store zero new items (both
return `None` and the history is unchanged), not exactly one. -/
theorem dedup_second_admission_noop_counterexample :
    (storeTopA.add_text "A" none "i1" 1).1 = none ∧
    ((storeTopA.add_text "A" none "i1" 1).2.add_text "A" none "i2" 2).1 = none ∧
    ((storeTopA.add_text "A" none "i1" 1).2.add_text "A" none "i2" 2).2.history
      = storeTopA.history := by
  decide

open ClipboardManager in
/-- Witness for C3 at concrete inputs: on the empty store the first admission
of `"A"` stores an item and the second is a no-op; on `storeTopA` the
top-duplicate clause applies. -/
theorem dedup_second_admission_noop_witness :
    ((emptyStore.add_text "A" none "i1" 0).1.isSome = true ∧
      (emptyStore.add_text "A" none "i1" 0).2.add_text "A" none "i2" 1
        = (none, (emptyStore.add_text "A" none "i1" 0).2)) ∧
    ((storeTopA.should_skip_text "A").1 = false ∧
      storeTopA.last_added_text_hash ≠ some (calculate_hash "A") ∧
      storeTopA.is_duplicate_text "A" = true ∧
      storeTopA.add_text "A" none "i3" 3
        = (none, { storeTopA with
            last_added_text_hash := some (calculate_hash "A") })) :=
  ⟨⟨by decide,
    dedup_second_admission_noop.1 emptyStore "A" none none "i1" "i2" 0 1 (by decide)⟩,
   ⟨by decide, by decide, by decide,
    dedup_second_admission_noop.2 storeTopA "A" none "i3" 3 (by decide) (by decide)
      (by decide)⟩⟩

open ClipboardManager in
/-- C4 (as amended): after `mark_text_as_pasted "X"`, the first admission of
`"X"` returns `None`, creates nothing and clears the suppression slot — but
the second admission of `"X"` ALSO returns `None` and creates nothing, because
`mark_text_as_pasted` additionally arms the rapid-duplicate guard with
`"X"`'s hash. -/
theorem mark_text_as_pasted_suppresses_twice :
    ∀ (m : ClipboardManager) (id1 id2 : String) (ts1 ts2 : Int),
      (m.mark_text_as_pasted "X").add_text "X" none id1 ts1
        = (none, { m.mark_text_as_pasted "X" with last_pasted_text := none }) ∧
      ({ m.mark_text_as_pasted "X" with
          last_pasted_text := none } : ClipboardManager).add_text "X" none id2 ts2
        = (none, { m.mark_text_as_pasted "X" with last_pasted_text := none }) := by
  intro m id1 id2 ts1 ts2
  have hb : isBlank "X" = false := by decide
  have hg : (strContains "X" FILE_URI_PREFIX && strContains "X" GIF_CACHE_MARKER)
      = false := by decide
  constructor
  · have hsst := should_skip_text_hit
      (m := m.mark_text_as_pasted "X") (p := "X") (t := "X") rfl hb hg (by decide)
    rw [add_text_skip none id1 ts1 (by rw [hsst]), hsst]
  · have hsst := should_skip_text_no_slot
      (m := { m.mark_text_as_pasted "X" with last_pasted_text := none })
      (t := "X") hb hg rfl
    exact add_text_of_guard none id2 ts2 hsst rfl

/-- Counterexample to C4 as stated: from the empty store, after
`mark_text_as_pasted "X"` the second admission of `"X"` does NOT create a new
history item — it returns `None` and the history stays empty. -/
theorem mark_text_as_pasted_suppresses_twice_counterexample :
    (((emptyStore.mark_text_as_pasted "X").add_text "X" none "j1" 0).2.add_text
        "X" none "j2" 1).1 = none ∧
    (((emptyStore.mark_text_as_pasted "X").add_text "X" none "j1" 0).2.add_text
        "X" none "j2" 1).2.history = [] := by
  decide

/-- The two-item store `[C, B]` of the C5 scenario (index 0 = most recent). -/
def storeCB : ClipboardManager :=
  ⟨[ClipboardItem.new_text "idC" 0 "C", ClipboardItem.new_text "idB" 1 "B"],
   none, none, none, 2⟩

open ClipboardManager in
/-- C5 (as amended): pinning `"B"` in `[C, B]` with max size 2 and then
admitting `"D"` yields `get_history() = [B, D]` — `"C"` is evicted and the
pinned `"B"` is retained, placed before the unpinned `"D"` by the ordering
invariant. -/
theorem pin_protects_oldest_scenario :
    ((storeCB.toggle_pin "idB").2.add_text "D" none "idD" 2).2.get_history
      = [{ ClipboardItem.new_text "idB" 1 "B" with pinned := true },
         ClipboardItem.new_text "idD" 2 "D"] := by
  decide

/-- Counterexample to C5 as stated: the resulting history is not `[D, B]` —
the pinned `"B"` comes first. -/
theorem pin_protects_oldest_scenario_counterexample :
    ¬ ((storeCB.toggle_pin "idB").2.add_text "D" none "idD" 2).2.get_history
        = [ClipboardItem.new_text "idD" 2 "D",
           { ClipboardItem.new_text "idB" 1 "B" with pinned := true }] := by
  decide

open ClipboardManager in
/-- C6: `set_max_history_size` sets the limit to 50 for a requested 0, to `n`
for `1 ≤ n ≤ 100000` and to 100000 above that — raised to the protected-item
count when the clamped value falls below it; the history is re-trimmed to the
new limit, only ever by removing items, with every pinned-or-favorited item
kept. -/
theorem set_max_history_size_spec :
    ∀ (m : ClipboardManager) (n : Nat),
      (m.set_max_history_size n).max_history_size
        = (if (if n = 0 then 50 else if n ≤ 100000 then n else 100000)
              < (m.history.filter isProtected).length
           then (m.history.filter isProtected).length
           else if n = 0 then 50 else if n ≤ 100000 then n else 100000) ∧
      (m.set_max_history_size n).history.filter isProtected
        = m.history.filter isProtected ∧
      (m.set_max_history_size n).history.Sublist m.history ∧
      (m.set_max_history_size n).history.length
        ≤ (m.set_max_history_size n).max_history_size := by
  intro m n
  have hhist : (m.set_max_history_size n).history
      = enforceLoop m.history.length
          (if clamp_max_history_size n < (m.history.filter isProtected).length
           then (m.history.filter isProtected).length
           else clamp_max_history_size n)
          m.history := rfl
  have hmax : (m.set_max_history_size n).max_history_size
      = (if clamp_max_history_size n < (m.history.filter isProtected).length
         then (m.history.filter isProtected).length
         else clamp_max_history_size n) := rfl
  refine ⟨?_, ?_, ?_, ?_⟩
  · rw [hmax]
    rfl
  · rw [hhist]
    exact enforceLoop_filter_protected (fun x h => h) _ _ _
  · rw [hhist]
    exact enforceLoop_sublist _ _ _
  · rw [hhist, hmax]
    have hP : (m.history.filter isProtected).length
        ≤ (if clamp_max_history_size n < (m.history.filter isProtected).length
           then (m.history.filter isProtected).length
           else clamp_max_history_size n) := by
      by_cases hlt : clamp_max_history_size n < (m.history.filter isProtected).length
      · rw [if_pos hlt]
      · rw [if_neg hlt]
        omega
    rcases enforceLoop_length_or_protected m.history.length
        (if clamp_max_history_size n < (m.history.filter isProtected).length
         then (m.history.filter isProtected).length
         else clamp_max_history_size n)
        m.history (le_refl _) with hle | hall
    · exact hle
    · have hself : (enforceLoop m.history.length _ m.history).filter isProtected
          = enforceLoop m.history.length _ m.history :=
        List.filter_eq_self.mpr (fun a ha => hall a ha)
      calc (enforceLoop m.history.length _ m.history).length
          = ((enforceLoop m.history.length _ m.history).filter isProtected).length := by
            rw [hself]
        _ = (m.history.filter isProtected).length := by
            rw [enforceLoop_filter_protected (fun x h => h)]
        _ ≤ _ := hP

open ClipboardManager in
/-- Witness for C6 at concrete inputs (C6's theorem itself has no hypotheses;
this instantiates it on a store holding one favorited item, with requested
size 0). -/
theorem set_max_history_size_spec_witness :
    (witnessStoreC2.set_max_history_size 0).max_history_size
        = (if (if (0 : Nat) = 0 then 50 else if (0 : Nat) ≤ 100000 then 0 else 100000)
              < (witnessStoreC2.history.filter isProtected).length
           then (witnessStoreC2.history.filter isProtected).length
           else if (0 : Nat) = 0 then 50
                else if (0 : Nat) ≤ 100000 then 0 else 100000) ∧
      (witnessStoreC2.set_max_history_size 0).history.filter isProtected
        = witnessStoreC2.history.filter isProtected :=
  ⟨(set_max_history_size_spec witnessStoreC2 0).1,
   (set_max_history_size_spec witnessStoreC2 0).2.1⟩

/-! ### C7: the injection cascade -/

lemma runCascade_ok_iff (o : PasteStrategy → Except String Unit) :
    ∀ l, ((runCascade o l).1 = Except.ok ()) ↔ ∃ s ∈ l, o s = Except.ok () := by
  intro l
  induction l with
  | nil => simp [runCascade]
  | cons s rest ih =>
    cases ho : o s with
    | ok u =>
      cases u
      simp [runCascade, ho]
    | error e =>
      simp [runCascade, ho, ih]

lemma runCascade_all_fail (o : PasteStrategy → Except String Unit) :
    ∀ l, (∀ s ∈ l, ∃ e, o s = Except.error e) →
      runCascade o l = (Except.error "All paste methods failed", l) := by
  intro l
  induction l with
  | nil => intro _; rfl
  | cons s rest ih =>
    intro h
    obtain ⟨e, he⟩ := h s (List.mem_cons_self s rest)
    simp [runCascade, he, ih (fun x hx => h x (List.mem_cons_of_mem _ hx))]

lemma runCascade_first_success (o : PasteStrategy → Except String Unit) :
    ∀ (pre : List PasteStrategy) (s : PasteStrategy) (post : List PasteStrategy),
      (∀ x ∈ pre, ∃ e, o x = Except.error e) → o s = Except.ok () →
      runCascade o (pre ++ s :: post) = (Except.ok (), pre ++ [s]) := by
  intro pre
  induction pre with
  | nil =>
    intro s post _ hok
    simp [runCascade, hok]
  | cons p pre' ih =>
    intro s post hfail hok
    obtain ⟨e, he⟩ := hfail p (List.mem_cons_self p pre')
    simp [runCascade, he,
      ih s post (fun x hx => hfail x (List.mem_cons_of_mem _ hx)) hok]

lemma except_unit_cases (v : Except String Unit) :
    v = Except.ok () ∨ ∃ e, v = Except.error e := by
  cases v with
  | ok u => cases u; exact Or.inl rfl
  | error e => exact Or.inr ⟨e, rfl⟩

open PasteStrategy in
/-- C7: the paste-keystroke cascade tries its strategies in the fixed order
(xdotool, then XTest, then uinput on X11; uinput alone otherwise), stops at —
and returns the success of — the first strategy that succeeds, leaving the
remaining strategies unattempted, and reports an error exactly when every
strategy in the cascade fails. -/
theorem paste_cascade_first_success_error_iff_all_fail :
    paste_strategies true = [xdotool, xtest, uinput] ∧
    paste_strategies false = [uinput] ∧
    (∀ (isX11 : Bool) (o : PasteStrategy → Except String Unit),
      ((∃ e, (simulate_paste_keystroke isX11 o).1 = Except.error e)
        ↔ ∀ s ∈ paste_strategies isX11, ∃ e, o s = Except.error e)) ∧
    (∀ (isX11 : Bool) (o : PasteStrategy → Except String Unit)
        (pre : List PasteStrategy) (s : PasteStrategy) (post : List PasteStrategy),
      paste_strategies isX11 = pre ++ s :: post →
      (∀ x ∈ pre, ∃ e, o x = Except.error e) → o s = Except.ok () →
      simulate_paste_keystroke isX11 o = (Except.ok (), pre ++ [s])) := by
  refine ⟨rfl, rfl, ?_, ?_⟩
  · intro isX11 o
    constructor
    · rintro ⟨e, he⟩ s hs
      rcases except_unit_cases (o s) with hok | herr
      · have := (runCascade_ok_iff o (paste_strategies isX11)).mpr ⟨s, hs, hok⟩
        rw [simulate_paste_keystroke] at he
        rw [this] at he
        cases he
      · exact herr
    · intro hall
      rw [simulate_paste_keystroke, runCascade_all_fail o _ hall]
      exact ⟨"All paste methods failed", rfl⟩
  · intro isX11 o pre s post hsplit hfail hok
    rw [simulate_paste_keystroke, hsplit]
    exact runCascade_first_success o pre s post hfail hok

/-- An outcome environment for the C7 witness: xdotool absent, XTest
succeeding, uinput unreachable. -/
def witnessOutcome : PasteStrategy → Except String Unit
  | PasteStrategy.xdotool => Except.error "xdotool not found"
  | PasteStrategy.xtest => Except.ok ()
  | PasteStrategy.uinput => Except.error "permission denied"

open PasteStrategy in
/-- Witness for C7 at a concrete outcome environment: on X11 with xdotool
failing and XTest succeeding, the cascade returns success after attempting
exactly xdotool and XTest — uinput is never attempted. -/
theorem paste_cascade_witness :
    witnessOutcome xtest = Except.ok () ∧
    simulate_paste_keystroke true witnessOutcome
      = (Except.ok (), [xdotool] ++ [xtest]) :=
  ⟨rfl,
   paste_cascade_first_success_error_iff_all_fail.2.2.2 true witnessOutcome
     [xdotool] xtest [uinput] rfl
     (fun x hx => by
       rw [List.mem_singleton] at hx
       rw [hx]
       exact ⟨"xdotool not found", rfl⟩)
     rfl⟩

/-! ### C8: persistence round trip -/

namespace ClipboardManager

/-- Filtering the pinned-first partition by a predicate that only holds on
unpinned items gives exactly the original filter. -/
lemma filter_partition_of_unpinned {q : ClipboardItem → Bool}
    (hq : ∀ x, q x = true → x.pinned = false) (items : List ClipboardItem) :
    (items.filter (fun i => i.pinned) ++ items.filter (fun i => !i.pinned)).filter q
      = items.filter q := by
  rw [List.filter_append, List.filter_filter, List.filter_filter]
  have h1 : items.filter (fun a => q a && a.pinned) = [] := by
    rw [List.filter_eq_nil_iff]
    intro a _
    cases hqa : q a
    · simp
    · simp [hq a hqa]
  have h2 : items.filter (fun a => q a && !a.pinned) = items.filter q :=
    List.filter_congr (fun a _ => by
      cases hqa : q a
      · simp
      · simp [hq a hqa])
  rw [h1, h2, List.nil_append]

/-- The pinned-first partition is a permutation of the original list. -/
lemma partition_perm (items : List ClipboardItem) :
    (items.filter (fun i => i.pinned) ++ items.filter (fun i => !i.pinned)).Perm
      items :=
  List.filter_append_perm _ items

end ClipboardManager

open ClipboardManager in
/-- C8: reloading a saved history yields the same items with every pinned item
moved to the front: the pinned group is preserved exactly, the unpinned group
keeps its relative order and loses only unprotected items (favorited unpinned
items are preserved exactly), the result is bounded by the configured maximum
or by the protected count, and a history within the limit round-trips to
exactly the pinned-first permutation of itself. -/
theorem save_load_round_trip :
    ∀ (m mld : ClipboardManager),
      PinnedFirst ((mld.load_history m.save_history).history) ∧
      (mld.load_history m.save_history).history.filter (fun x => x.pinned)
        = m.save_history.filter (fun i => i.pinned) ∧
      ((mld.load_history m.save_history).history.filter
          (fun x => !x.pinned)).Sublist
        (m.save_history.filter (fun i => !i.pinned)) ∧
      (mld.load_history m.save_history).history.filter
          (fun i => !i.pinned && i.favorited)
        = m.save_history.filter (fun i => !i.pinned && i.favorited) ∧
      (mld.load_history m.save_history).history.length
        ≤ max mld.max_history_size (m.save_history.filter isProtected).length ∧
      (m.save_history.length ≤ mld.max_history_size →
        (mld.load_history m.save_history).history
          = m.save_history.filter (fun i => i.pinned)
              ++ m.save_history.filter (fun i => !i.pinned) ∧
        ((mld.load_history m.save_history).history).Perm m.save_history) := by
  intro m mld
  obtain ⟨hpf, hgrp⟩ := load_history_inv mld m.save_history
  have hhist := load_history_snd_history mld m.save_history
  have hsub := enforceLoop_sublist
    (m.save_history.filter (fun i => i.pinned)
      ++ m.save_history.filter (fun i => !i.pinned)).length
    mld.max_history_size
    (m.save_history.filter (fun i => i.pinned)
      ++ m.save_history.filter (fun i => !i.pinned))
  refine ⟨hpf, ?_, ?_, ?_, ?_, ?_⟩
  · rw [hhist,
      enforceLoop_filter_protected (fun x h => by simp [isProtected, h]),
      filter_pinned_partition]
  · rw [hhist]
    have h := hsub.filter (fun x => !x.pinned)
    rwa [filter_unpinned_partition] at h
  · rw [hhist,
      enforceLoop_filter_protected
        (fun x h => by
          have : x.favorited = true := by
            cases hf : x.favorited
            · rw [hf] at h; simp at h
            · rfl
          simp [isProtected, this]),
      filter_partition_of_unpinned
        (fun x h => by
          cases hp : x.pinned
          · rfl
          · rw [hp] at h; simp at h)]
  · rw [hhist]
    rcases enforceLoop_length_or_protected
      (m.save_history.filter (fun i => i.pinned)
        ++ m.save_history.filter (fun i => !i.pinned)).length
      mld.max_history_size
      (m.save_history.filter (fun i => i.pinned)
        ++ m.save_history.filter (fun i => !i.pinned))
      (le_refl _) with hle | hall
    · exact le_trans hle (le_max_left _ _)
    · have hself := List.filter_eq_self.mpr hall
      have hfp := enforceLoop_filter_protected (q := isProtected) (fun x h => h)
        (m.save_history.filter (fun i => i.pinned)
          ++ m.save_history.filter (fun i => !i.pinned)).length
        mld.max_history_size
        (m.save_history.filter (fun i => i.pinned)
          ++ m.save_history.filter (fun i => !i.pinned))
      have hperm := (((partition_perm m.save_history).filter isProtected).length_eq :
        ((m.save_history.filter (fun i => i.pinned)
            ++ m.save_history.filter (fun i => !i.pinned)).filter isProtected).length
          = (m.save_history.filter isProtected).length)
      rw [← hself, hfp]
      exact le_trans (Nat.le_of_eq hperm) (le_max_right _ _)
  · intro hle
    have hplen : (m.save_history.filter (fun i => i.pinned)
        ++ m.save_history.filter (fun i => !i.pinned)).length
        = m.save_history.length := (partition_perm m.save_history).length_eq
    have hnl : ¬ mld.max_history_size
        < (m.save_history.filter (fun i => i.pinned)
            ++ m.save_history.filter (fun i => !i.pinned)).length := by
      rw [hplen]; omega
    rw [hhist, enforceLoop_of_le hnl]
    exact ⟨rfl, partition_perm m.save_history⟩

/-- A mixed pinned/favorited/plain store for the C8 witness. -/
def witnessStoreC8 : ClipboardManager :=
  ⟨[{ id := "f", content := ClipboardContent.Text "F", timestamp := 0,
      pinned := false, favorited := true, preview := "F" },
    { id := "p", content := ClipboardContent.Text "P", timestamp := 0,
      pinned := true, favorited := false, preview := "P" },
    { id := "z", content := ClipboardContent.Text "Z", timestamp := 0,
      pinned := false, favorited := false, preview := "Z" }], none, none, none, 5⟩

open ClipboardManager in
/-- Witness for C8 at concrete inputs: a three-item mixed history within the
limit reloads to exactly its pinned-first reordering. -/
theorem save_load_round_trip_witness :
    witnessStoreC8.save_history.length ≤ emptyStore.max_history_size ∧
    (emptyStore.load_history witnessStoreC8.save_history).history
      = witnessStoreC8.save_history.filter (fun i => i.pinned)
          ++ witnessStoreC8.save_history.filter (fun i => !i.pinned) :=
  ⟨by decide,
   ((save_load_round_trip witnessStoreC8 emptyStore).2.2.2.2.2 (by decide)).1⟩

/-! ### C9: the hash is reference FNV-1a, fixed and seedless -/

/-- The FNV-1a reference definition, spelled out independently: start from the
offset basis `0xcbf29ce484222325`; for each byte, XOR it in and multiply by
`0x100000001b3`, reducing modulo `2^64`. -/
def fnv1a_reference (bytes : List Nat) : Nat :=
  bytes.foldl (fun h b => ((h ^^^ b) * 0x100000001b3) % 2 ^ 64) 0xcbf29ce484222325

/-- C9: `calculate_hash` is deterministic and seedless — `FnvHasher` computes
exactly the FNV-1a reference fold over any byte stream, `calculate_hash`
equals the reference applied to the string's hashed byte stream (its UTF-8
bytes plus the `0xff` terminator Rust's `str` `Hash` impl appends), and equal
inputs always hash equal (the function takes no per-process seed). -/
theorem calculate_hash_is_reference_fnv1a :
    (∀ bytes : List Nat, fnvWrite FNV_OFFSET_BASIS bytes = fnv1a_reference bytes) ∧
    (∀ s : String, calculate_hash s = fnv1a_reference (strHashStream s)) ∧
    (∀ s t : String, s = t → calculate_hash s = calculate_hash t) := by
  refine ⟨fun bytes => rfl, fun s => rfl, ?_⟩
  intro s t h
  rw [h]

/-- Witness for C9 at a concrete input. -/
theorem calculate_hash_is_reference_fnv1a_witness :
    ("penguin" : String) = "penguin" ∧
    calculate_hash "penguin" = fnv1a_reference (strHashStream "penguin") ∧
    calculate_hash "penguin" = calculate_hash "penguin" :=
  ⟨rfl, calculate_hash_is_reference_fnv1a.2.1 "penguin",
   calculate_hash_is_reference_fnv1a.2.2 "penguin" "penguin" rfl⟩

/-! ### C10: self-paste suppression matches by substring containment -/

open ClipboardManager in
/-- C10 (as amended): while the last-pasted-text slot holds `p`, any admitted
non-blank text that is not a GIF-cache URI and contains `p` as a substring
(not only text equal to `p`) is rejected and the suppression slot is cleared.
(Blank texts and GIF-cache URIs containing `p` are rejected by the earlier
checks without clearing the slot.) -/
theorem self_paste_suppression_substring :
    ∀ (m : ClipboardManager) (p t : String) (html : Option String) (idv : String)
      (ts : Int),
      m.last_pasted_text = some p →
      isBlank t = false →
      (strContains t FILE_URI_PREFIX && strContains t GIF_CACHE_MARKER) = false →
      strContains t p = true →
      m.add_text t html idv ts = (none, { m with last_pasted_text := none }) := by
  intro m p t html idv ts hlp hb hg hc
  have hsst := should_skip_text_hit hlp hb hg (by simp [hc])
  rw [add_text_skip html idv ts (by rw [hsst]), hsst]

/-- A store with the suppression slot armed with `"X"`, for the C10 theorems. -/
def storeSlotX : ClipboardManager := ⟨[], some "X", none, none, 50⟩

open ClipboardManager in
/-- Counterexample to C10 as stated: with the slot holding `"X"`, the
GIF-cache URI `"file://penguinclip/gifs/X"` contains `"X"` and is rejected,
but the suppression slot is NOT cleared (the GIF-cache check fires first). -/
theorem self_paste_suppression_substring_counterexample :
    (storeSlotX.add_text "file://penguinclip/gifs/X" none "k" 0).1 = none ∧
    (storeSlotX.add_text "file://penguinclip/gifs/X" none "k" 0).2.last_pasted_text
      = some "X" := by
  decide

open ClipboardManager in
/-- Witness for C10 at concrete inputs: `"aXb"` strictly contains `"X"` and is
rejected with the slot cleared. -/
theorem self_paste_suppression_substring_witness :
    storeSlotX.last_pasted_text = some "X" ∧
    isBlank "aXb" = false ∧
    (strContains "aXb" FILE_URI_PREFIX && strContains "aXb" GIF_CACHE_MARKER)
      = false ∧
    strContains "aXb" "X" = true ∧
    storeSlotX.add_text "aXb" none "w" 0
      = (none, { storeSlotX with last_pasted_text := none }) :=
  ⟨rfl, by decide, by decide, by decide,
   self_paste_suppression_substring storeSlotX "X" "aXb" none "w" 0 rfl
     (by decide) (by decide) (by decide)⟩

end PenguinClip
